import Mathlib

/-!
Verification of the dialkit reactive configuration store (`src/store.ts`) and
value resolver (`src/resolve.ts`).

The embedding models JavaScript runtime values with a mutual inductive type
`JSVal` (numbers as `ℚ`; `undef` models `undefined`).  Objects are ordered
field lists (`JSFields`) and arrays are `JSList`, mirroring JS insertion-order
semantics.  Fallible code paths (property access on `undefined`/`null`, which
throws a `TypeError` in JS) are modelled with `Except String`.  String-to-name
coercions and `NaN` arithmetic are not modelled; where the source would produce
`NaN` in a numeric comparison chain every comparison is false, which the
embedding reproduces by falling to the final branch.
-/

mutual

inductive JSVal where
  | num (q : ℚ)
  | bool (b : Bool)
  | str (s : String)
  | null
  | undef
  | fn
  | arr (elems : JSList)
  | obj (fields : JSFields)

inductive JSList where
  | nil
  | cons (head : JSVal) (tail : JSList)

inductive JSFields where
  | nil
  | cons (key : String) (val : JSVal) (tail : JSFields)

end

/-- Length of a JS array. -/
def JSList.length : JSList → Nat
  | .nil => 0
  | .cons _ t => 1 + t.length

/-- First occurrence lookup of a key in a JS object's field list
(JS objects cannot repeat keys; on lists the first occurrence wins,
matching every use in the source). -/
def agetF (k : String) : JSFields → Option JSVal
  | .nil => none
  | .cons k' v t => if k' = k then some v else agetF k t

/-- JS nullish coalescing `a ?? b` where `a` is an optional property read
(`none` models a missing property, i.e. `undefined`). -/
def jsCoalesce : Option JSVal → JSVal → JSVal
  | none, d => d
  | some .null, d => d
  | some .undef, d => d
  | some v, _ => v

/-- `isSpringConfig` from `store.ts`: an object whose `type` field is
the string `"spring"`. -/
def isSpringConfig : JSVal → Bool
  | .obj fs => match agetF "type" fs with
    | some (.str s) => s = "spring"
    | _ => false
  | _ => false

/-- `isEasingConfig` from `resolve.ts` (the store's schema builder has no
easing test): an object whose `type` field is the string `"easing"`. -/
def isEasingConfig : JSVal → Bool
  | .obj fs => match agetF "type" fs with
    | some (.str s) => s = "easing"
    | _ => false
  | _ => false

/-- `isActionConfig` from `store.ts`. -/
def isActionConfig : JSVal → Bool
  | .obj fs => match agetF "type" fs with
    | some (.str s) => s = "action"
    | _ => false
  | _ => false

/-- `isSelectConfig` from `store.ts`: `type == 'select'` and an `options`
field holding an array.  Note the source does not require the options list
to be non-empty. -/
def isSelectConfig : JSVal → Bool
  | .obj fs => (match agetF "type" fs with
    | some (.str s) => s = "select"
    | _ => false) &&
    (match agetF "options" fs with
    | some (.arr _) => true
    | _ => false)
  | _ => false

/-- `isColorConfig` from `store.ts`. -/
def isColorConfig : JSVal → Bool
  | .obj fs => match agetF "type" fs with
    | some (.str s) => s = "color"
    | _ => false
  | _ => false

/-- `isTextConfig` from `store.ts`. -/
def isTextConfig : JSVal → Bool
  | .obj fs => match agetF "type" fs with
    | some (.str s) => s = "text"
    | _ => false
  | _ => false

/-- `isHexColor` from `store.ts`: `#` followed by 3, 6 or 8 hex digits. -/
def isHexColor (s : String) : Bool :=
  match s.data with
  | [] => false
  | c :: rest =>
    c = '#' && (rest.length = 3 || rest.length = 6 || rest.length = 8) &&
      rest.all (fun d => d.isDigit || ('a' ≤ d && d ≤ 'f') || ('A' ≤ d && d ≤ 'F'))

/-- Classification outcome for one configuration entry.  This factors the
repeated branch ladder of `parseConfig` / `flattenValues` /
`buildResolvedValues`; each consumer maps the constructors back to exactly
its own source branches (in particular `easingK` is only a distinct leaf for
the resolver; the schema builder reaches its generic object branch for it). -/
inductive CKind where
  | tupleK (q : ℚ) (rest : JSList)
  | numK (q : ℚ)
  | boolK (b : Bool)
  | strK (s : String)
  | springK
  | easingK
  | actionK
  | selectK (opts : JSList) (dflt : Option JSVal)
  | colorK (dflt : Option JSVal)
  | textK (dflt : Option JSVal) (ph : Option JSVal)
  | groupK
  | skipK

/-- The branch ladder shared by the source's three config walks:
`Array.isArray(v) && v.length <= 4 && typeof v[0] === 'number'` (range tuple),
bare number / boolean / string, then the tagged-record predicates in source
order, then plain objects (and non-tuple arrays, which are objects in JS)
as groups; `null`, `undefined` and functions match no branch. -/
def classify : JSVal → CKind
  | .arr (.cons (.num q) rest) =>
      if rest.length ≤ 3 then .tupleK q rest else .groupK
  | .arr _ => .groupK
  | .num q => .numK q
  | .bool b => .boolK b
  | .str s => .strK s
  | .obj fs =>
      if isSpringConfig (.obj fs) then .springK
      else if isEasingConfig (.obj fs) then .easingK
      else if isActionConfig (.obj fs) then .actionK
      else if isSelectConfig (.obj fs) then
        .selectK (match agetF "options" fs with
                  | some (.arr xs) => xs
                  | _ => .nil)
                 (agetF "default" fs)
      else if isColorConfig (.obj fs) then .colorK (agetF "default" fs)
      else if isTextConfig (.obj fs) then
        .textK (agetF "default" fs) (agetF "placeholder" fs)
      else .groupK
  | .null => .skipK
  | .undef => .skipK
  | .fn => .skipK

/-- `formatLabel` from `store.ts`: insert a space before each ASCII capital,
uppercase the first character, trim. -/
def formatLabel (key : String) : String :=
  let spaced := key.data.foldr
    (fun c acc => if c.isUpper then ' ' :: c :: acc else c :: acc) []
  let upped := match spaced with
    | [] => []
    | c :: cs => c.toUpper :: cs
  String.mk (((upped.dropWhile (·.isWhitespace)).reverse.dropWhile
    (·.isWhitespace)).reverse)

/-- `inferRange` from `store.ts` (the `value * 3 || floor` expressions are
JS `||`: the floor applies only when `value * 3` is `0`). -/
def inferRange (value : ℚ) : ℚ × ℚ × ℚ :=
  if 0 ≤ value ∧ value ≤ 1 then (0, 1, 1/100)
  else if 0 ≤ value ∧ value ≤ 10 then
    (0, if value * 3 = 0 then 10 else value * 3, 1/10)
  else if 0 ≤ value ∧ value ≤ 100 then
    (0, if value * 3 = 0 then 100 else value * 3, 1)
  else if 0 ≤ value then
    (0, if value * 3 = 0 then 1000 else value * 3, 10)
  else (value * 3, -value * 3, 1)

/-- `inferStep` from `store.ts`, on numeric bounds. -/
def inferStep (mn mx : ℚ) : ℚ :=
  if mx - mn ≤ 1 then 1/100
  else if mx - mn ≤ 10 then 1/10
  else if mx - mn ≤ 100 then 1
  else 10

/-- `inferStep` as called from the tuple branch, where `value[1]` and
`value[2]` may be absent or non-numeric (JS subtraction then yields `NaN`,
all comparisons are false, and the final branch returns 10). -/
def inferStepJS : Option JSVal → Option JSVal → ℚ
  | some (.num a), some (.num b) => inferStep a b
  | _, _ => 10

/-- Element access `xs[i]` on a JS array (missing index reads `undefined`,
modelled as `none` for use under `??`). -/
def jsIdx : JSList → Nat → Option JSVal
  | .nil, _ => none
  | .cons h _, 0 => some h
  | .cons _ t, n + 1 => jsIdx t n

/-- `prefix ? prefix + '.' + key : key` (empty string is falsy). -/
def joinPath (pre k : String) : String :=
  if pre = "" then k else pre ++ "." ++ k

/-- Control types of `ControlMeta.type`. -/
inductive CtrlType where
  | slider | toggle | spring | folder | action | select | color | text
  deriving DecidableEq

/-- `ControlMeta` from `store.ts`; optional fields are `Option`
(`none` = absent/`undefined`). -/
structure ControlMeta where
  type : CtrlType
  path : String
  label : String
  min : Option JSVal := none
  max : Option JSVal := none
  step : Option JSVal := none
  children : Option (List ControlMeta)
  options : Option JSList := none
  placeholder : Option JSVal := none

/-- Flat value map `Record<string, DialValue>`: ordered key/value list with
first-occurrence lookup and in-place update. -/
abbrev FlatMap := List (String × JSVal)

/-- Property lookup in a flat map / generic string-keyed record. -/
def aget (k : String) : List (String × α) → Option α
  | [] => none
  | (k', v) :: t => if k' = k then some v else aget k t

/-- JS property write `m[k] = v`: overwrite in place keeping the key's
original position, else append. -/
def aset (k : String) (v : α) : List (String × α) → List (String × α)
  | [] => [(k, v)]
  | (k', v') :: t => if k' = k then (k, v) :: t else (k', v') :: aset k v t

/-- `Map.delete`. -/
def adel (k : String) : List (String × α) → List (String × α)
  | [] => []
  | (k', v') :: t => if k' = k then t else (k', v') :: adel k t

/-- `Object.assign(a, b)`: write every entry of `b` into `a` in order. -/
def amerge (a : List (String × α)) : List (String × α) → List (String × α)
  | [] => a
  | (k, v) :: t => amerge (aset k v a) t

/-- The action-control label: `value.label || label` (`||`, so an empty
string falls back; non-string `label` properties are treated as absent). -/
def actionLabel (v : JSVal) (fallback : String) : String :=
  match v with
  | .obj fs => match agetF "label" fs with
    | some (.str s) => if s = "" then fallback else s
    | _ => fallback
  | _ => fallback

mutual

/-- One entry of `parseConfig` from `store.ts`: the body of the
`for (const [key, value] of Object.entries(config))` loop, producing the
control(s) pushed for `value` at `path`. -/
def parseEntry (path label : String) (v : JSVal) : List ControlMeta :=
  match classify v with
  | .tupleK _ rest =>
      [{ type := .slider, path, label, children := none,
         min := jsIdx rest 0, max := jsIdx rest 1,
         step := some (jsCoalesce (jsIdx rest 2)
           (.num (inferStepJS (jsIdx rest 0) (jsIdx rest 1)))) }]
  | .numK q =>
      let r := inferRange q
      [{ type := .slider, path, label, children := none, min := some (.num r.1),
         max := some (.num r.2.1), step := some (.num r.2.2) }]
  | .boolK _ => [{ type := .toggle, path, label, children := none }]
  | .strK s =>
      if isHexColor s then [{ type := .color, path, label, children := none }]
      else [{ type := .text, path, label, children := none }]
  | .springK => [{ type := .spring, path, label, children := none }]
  | .actionK =>
      [{ type := .action, path, label := actionLabel v label, children := none }]
  | .selectK opts _ =>
      [{ type := .select, path, label, children := none, options := some opts }]
  | .colorK _ => [{ type := .color, path, label, children := none }]
  | .textK _ ph =>
      [{ type := .text, path, label, children := none, placeholder := ph }]
  | .easingK | .groupK =>
      match v with
      | .obj fs => [{ type := .folder, path, label,
                      children := some (parseFields path fs) }]
      | .arr xs => [{ type := .folder, path, label,
                      children := some (parseElems path 0 xs) }]
      | _ => []
  | .skipK => []

/-- `parseConfig` over an object's entries. -/
def parseFields (pre : String) : JSFields → List ControlMeta
  | .nil => []
  | .cons k v t =>
      parseEntry (joinPath pre k) (formatLabel k) v ++ parseFields pre t

/-- `parseConfig` over a (non-tuple) array's entries: `Object.entries`
yields index keys `"0"`, `"1"`, …. -/
def parseElems (pre : String) (i : Nat) : JSList → List ControlMeta
  | .nil => []
  | .cons v t =>
      parseEntry (joinPath pre (toString i)) (formatLabel (toString i)) v ++
        parseElems pre (i + 1) t

end

/-- `getFirstOptionValue` / the eager `firstValue` computation in
`flattenValues`: `typeof first === 'string' ? first : first.value`;
property access on `undefined` or `null` throws a `TypeError`. -/
def firstOptionValue : JSList → Except String JSVal
  | .nil => .error "TypeError: cannot read properties of undefined"
  | .cons o _ =>
    match o with
    | .str s => .ok (.str s)
    | .null => .error "TypeError: cannot read properties of null"
    | .undef => .error "TypeError: cannot read properties of undefined"
    | .obj fs => .ok ((agetF "value" fs).getD .undef)
    | _ => .ok .undef

mutual

/-- One entry of `flattenValues` from `store.ts`: the value(s) recorded for
config entry `v` at `path`.  The select branch computes the first option's
value eagerly (before `??`), so an empty options list throws even when a
`default` is present. -/
def flattenEntry (path : String) (v : JSVal) : Except String FlatMap :=
  match classify v with
  | .tupleK q _ => .ok [(path, .num q)]
  | .numK _ | .boolK _ | .strK _ => .ok [(path, v)]
  | .springK => .ok [(path, v)]
  | .actionK => .ok [(path, v)]
  | .selectK opts dflt =>
      (match firstOptionValue opts with
       | .error e => .error e
       | .ok fv => .ok [(path, jsCoalesce dflt fv)])
  | .colorK dflt => .ok [(path, jsCoalesce dflt (.str "#000000"))]
  | .textK dflt _ => .ok [(path, jsCoalesce dflt (.str ""))]
  | .easingK | .groupK =>
      match v with
      | .obj fs => flattenFields path fs
      | .arr xs => flattenElems path 0 xs
      | _ => .ok []
  | .skipK => .ok []

/-- `flattenValues` over an object's entries, accumulating into one record
(`values[path] = …` / `Object.assign(values, …)`). -/
def flattenFields (pre : String) : JSFields → Except String FlatMap
  | .nil => .ok []
  | .cons k v t =>
      (match flattenEntry (joinPath pre k) v with
       | .error e => .error e
       | .ok m =>
         match flattenFields pre t with
         | .error e => .error e
         | .ok rest => .ok (amerge m rest))

/-- `flattenValues` over a (non-tuple) array's entries. -/
def flattenElems (pre : String) (i : Nat) : JSList → Except String FlatMap
  | .nil => .ok []
  | .cons v t =>
      (match flattenEntry (joinPath pre (toString i)) v with
       | .error e => .error e
       | .ok m =>
         match flattenElems pre (i + 1) t with
         | .error e => .error e
         | .ok rest => .ok (amerge m rest))

end

/-!
## The reactive store (`DialStoreClass`)

State fields mirror the class's private maps.  Snapshot objects carry an
allocation tag (`VRef.tag`) so that JS reference identity of `{ ...values }`
copies is observable: every mutation allocates a fresh tag from `nextRef`.
Listener sets hold functions and are not modelled; `notify`/`notifyGlobal`
do not touch any modelled state.  The source generates preset ids from
`Date.now()` and `Math.random()`; the generator is modelled as the counter
`nextPresetId` (the only property the source relies on is freshness).
-/

/-- A snapshot object reference: allocation tag plus contents. -/
structure VRef where
  tag : Nat
  data : FlatMap

/-- `EMPTY_VALUES`: the single shared frozen empty object returned by
`getValues` for ids with no snapshot. -/
def EMPTY_VALUES : VRef := ⟨0, []⟩

/-- `PanelConfig` from `store.ts`. -/
structure Panel where
  id : String
  name : String
  controls : List ControlMeta
  values : FlatMap

/-- `Preset` from `store.ts`. -/
structure Preset where
  id : String
  name : String
  values : FlatMap

/-- The state of `DialStoreClass`. -/
structure DialStore where
  panels : List (String × Panel)
  snapshots : List (String × VRef)
  presets : List (String × List Preset)
  activePreset : List (String × Option String)
  baseValues : List (String × FlatMap)
  nextRef : Nat
  nextPresetId : Nat

/-- The freshly constructed singleton store. -/
def emptyStore : DialStore :=
  { panels := [], snapshots := [], presets := [], activePreset := [],
    baseValues := [], nextRef := 1, nextPresetId := 0 }

/-- Modelled preset-id generator (source: `preset-${Date.now()}-${random}`). -/
def mkPresetId (n : Nat) : String := "preset-" ++ toString n

/-- `registerPanel`: parse the config, flatten the defaults, store panel,
snapshot copy and base-values copy.  `flattenValues` may throw. -/
def registerPanel (s : DialStore) (id name : String) (config : JSFields) :
    Except String DialStore := do
  let controls := parseFields "" config
  let values ← flattenFields "" config
  .ok { s with
    panels := aset id ⟨id, name, controls, values⟩ s.panels,
    snapshots := aset id ⟨s.nextRef, values⟩ s.snapshots,
    baseValues := aset id values s.baseValues,
    nextRef := s.nextRef + 1 }

/-- `unregisterPanel`: deletes the panel, its listeners and its snapshot
(and nothing else). -/
def unregisterPanel (s : DialStore) (id : String) : DialStore :=
  { s with panels := adel id s.panels, snapshots := adel id s.snapshots }

/-- JS truthiness of the `activePreset.get(panelId)` read in `updateValue`
(`undefined`, `null` and the empty string are falsy). -/
def activeIdOf (s : DialStore) (id : String) : Option String :=
  match aget id s.activePreset with
  | some (some a) => if a = "" then none else some a
  | _ => none

/-- Replace the values of the first preset with the given id
(`presets.find(p => p.id === activeId)` followed by in-place mutation). -/
def updFirst (aid : String) (f : FlatMap → FlatMap) : List Preset → List Preset
  | [] => []
  | p :: t => if p.id = aid then { p with values := f p.values } :: t
              else p :: updFirst aid f t

/-- `updateValue`: silent no-op on an absent panel; writes the flat value;
mirrors the write into the active preset if one is set, else into the
base values; takes a fresh snapshot. -/
def updateValue (s : DialStore) (panelId path : String) (value : JSVal) :
    DialStore :=
  match aget panelId s.panels with
  | none => s
  | some panel =>
    let values' := aset path value panel.values
    let s' :=
      match activeIdOf s panelId with
      | some activeId =>
        let newPresets :=
          aset panelId (updFirst activeId (aset path value)
            ((aget panelId s.presets).getD [])) s.presets
        { s with presets := newPresets }
      | none =>
        match aget panelId s.baseValues with
        | some base =>
          { s with baseValues := aset panelId (aset path value base) s.baseValues }
        | none => s
    { s' with
      panels := aset panelId { panel with values := values' } s.panels,
      snapshots := aset panelId ⟨s.nextRef, values'⟩ s.snapshots,
      nextRef := s.nextRef + 1 }

/-- `updateSpringMode`: writes the auxiliary value at `path + '.__mode'`
and takes a fresh snapshot.  Unlike `updateValue` it does not mirror the
write into the active preset or the base values. -/
def updateSpringMode (s : DialStore) (panelId path mode : String) : DialStore :=
  match aget panelId s.panels with
  | none => s
  | some panel =>
    let values' := aset (path ++ ".__mode") (.str mode) panel.values
    { s with
      panels := aset panelId { panel with values := values' } s.panels,
      snapshots := aset panelId ⟨s.nextRef, values'⟩ s.snapshots,
      nextRef := s.nextRef + 1 }

/-- `getValues`: the stored snapshot reference, or the shared
`EMPTY_VALUES` sentinel. -/
def getValues (s : DialStore) (panelId : String) : VRef :=
  (aget panelId s.snapshots).getD EMPTY_VALUES

/-- The live flat values of a panel (empty for an absent panel); used to
state properties about `panel.values`. -/
def panelValues (s : DialStore) (panelId : String) : FlatMap :=
  match aget panelId s.panels with
  | some p => p.values
  | none => []

/-- `savePreset`: throws `Panel ${id} not found` on an absent panel;
otherwise snapshots the current values into a fresh preset, appends it,
marks it active, and takes a fresh snapshot.  Returns the new preset id. -/
def savePreset (s : DialStore) (panelId name : String) :
    Except String (DialStore × String) :=
  match aget panelId s.panels with
  | none => .error ("Panel " ++ panelId ++ " not found")
  | some panel =>
    let id := mkPresetId s.nextPresetId
    let preset : Preset := ⟨id, name, panel.values⟩
    .ok ({ s with
      presets := aset panelId ((aget panelId s.presets).getD [] ++ [preset])
        s.presets,
      activePreset := aset panelId (some id) s.activePreset,
      snapshots := aset panelId ⟨s.nextRef, panel.values⟩ s.snapshots,
      nextRef := s.nextRef + 1,
      nextPresetId := s.nextPresetId + 1 }, id)

/-- `loadPreset`: no-op if the panel or the preset is absent; otherwise
replaces the live values wholesale with the preset's stored values, takes
a fresh snapshot and marks the preset active. -/
def loadPreset (s : DialStore) (panelId presetId : String) : DialStore :=
  match aget panelId s.panels with
  | none => s
  | some panel =>
    match ((aget panelId s.presets).getD []).find? (fun p => p.id = presetId) with
    | none => s
    | some preset =>
      { s with
        panels := aset panelId { panel with values := preset.values } s.panels,
        snapshots := aset panelId ⟨s.nextRef, preset.values⟩ s.snapshots,
        activePreset := aset panelId (some presetId) s.activePreset,
        nextRef := s.nextRef + 1 }

/-- `deletePreset`: filters the preset list (this also writes an entry for
panel ids that had none), clears a matching active pointer, and takes a
fresh snapshot only when the panel exists. -/
def deletePreset (s : DialStore) (panelId presetId : String) : DialStore :=
  let filtered :=
    aset panelId (((aget panelId s.presets).getD []).filter
      (fun p => p.id ≠ presetId)) s.presets
  let s1 := { s with presets := filtered }
  let s2 :=
    match aget panelId s1.activePreset with
    | some (some a) =>
      if a = presetId then
        { s1 with activePreset := aset panelId none s1.activePreset }
      else s1
    | _ => s1
  match aget panelId s2.panels with
  | some panel =>
    { s2 with
      snapshots := aset panelId ⟨s2.nextRef, panel.values⟩ s2.snapshots,
      nextRef := s2.nextRef + 1 }
  | none => s2

/-- `getPresets`. -/
def getPresets (s : DialStore) (panelId : String) : List Preset :=
  (aget panelId s.presets).getD []

/-- `getActivePresetId`. -/
def getActivePresetId (s : DialStore) (panelId : String) : Option String :=
  (aget panelId s.activePreset).getD none

/-- `clearActivePreset`: restores the live values from the base-values
snapshot (when both exist) and always clears the active pointer. -/
def clearActivePreset (s : DialStore) (panelId : String) : DialStore :=
  let s1 :=
    match aget panelId s.panels, aget panelId s.baseValues with
    | some panel, some base =>
      { s with
        panels := aset panelId { panel with values := base } s.panels,
        snapshots := aset panelId ⟨s.nextRef, base⟩ s.snapshots,
        nextRef := s.nextRef + 1 }
    | _, _ => s
  { s1 with activePreset := aset panelId none s1.activePreset }

/-- `triggerAction` only invokes listeners; it mutates no store state. -/
def triggerAction (s : DialStore) (_panelId _path : String) : DialStore := s

/-! ## Basic lemmas about the record operations -/

/-- Keys of a string-keyed record. -/
def keys (m : List (String × α)) : List String := m.map Prod.fst

theorem aget_aset_self (k : String) (v : α) (m : List (String × α)) :
    aget k (aset k v m) = some v := by
  induction m with
  | nil => simp [aget, aset]
  | cons h t ih =>
    obtain ⟨k', v'⟩ := h
    by_cases hk : k' = k
    · subst hk; simp [aget, aset]
    · simp [aget, aset, hk, ih]

theorem aget_aset_ne (k k' : String) (v : α) (m : List (String × α))
    (h : k' ≠ k) : aget k (aset k' v m) = aget k m := by
  induction m with
  | nil => simp [aget, aset, h]
  | cons hd t ih =>
    obtain ⟨k'', v''⟩ := hd
    by_cases hk : k'' = k'
    · subst hk; simp [aget, aset, h]
    · by_cases hk2 : k'' = k
      · subst hk2; simp [aget, aset, hk]
      · simp [aget, aset, hk, hk2, ih]

theorem aget_eq_none_of_not_mem_keys (k : String) (m : List (String × α))
    (h : k ∉ keys m) : aget k m = none := by
  induction m with
  | nil => rfl
  | cons hd t ih =>
    obtain ⟨k', v'⟩ := hd
    simp only [keys, List.map_cons, List.mem_cons] at h
    push_neg at h
    rw [aget, if_neg (fun hh => h.1 hh.symm)]
    exact ih h.2

theorem mem_keys_of_aget_eq_some (k : String) (m : List (String × α)) (v : α)
    (h : aget k m = some v) : k ∈ keys m := by
  by_cases hmem : k ∈ keys m
  · exact hmem
  · rw [aget_eq_none_of_not_mem_keys k m hmem] at h; cases h

theorem aget_adel_self (k : String) (m : List (String × α))
    (hnd : (keys m).Nodup) : aget k (adel k m) = none := by
  induction m with
  | nil => rfl
  | cons hd t ih =>
    obtain ⟨k', v'⟩ := hd
    simp only [keys, List.map_cons, List.nodup_cons] at hnd
    by_cases hk : k' = k
    · subst hk
      rw [adel, if_pos rfl]
      exact aget_eq_none_of_not_mem_keys k' t (by simpa [keys] using hnd.1)
    · rw [adel, if_neg hk, aget, if_neg hk]
      exact ih hnd.2

/-! ## Shared concrete fixtures -/

/-- The demo panel configuration of the spec scenario:
`{opacity: [0.8, 0, 1], enabled: true}`. -/
def demoConfig : JSFields :=
  .cons "opacity"
    (.arr (.cons (.num (4/5)) (.cons (.num 0) (.cons (.num 1) .nil))))
    (.cons "enabled" (.bool true) .nil)

/-- The store after registering the demo panel (registration of
`demoConfig` succeeds, so the fallback branch is dead). -/
def demoStore : DialStore :=
  match registerPanel emptyStore "p1" "Demo" demoConfig with
  | .ok s => s
  | .error _ => emptyStore

/-- A select config `{type:'select', options: opts}`. -/
def selectConfig (opts : JSList) : JSVal :=
  .obj (.cons "type" (.str "select") (.cons "options" (.arr opts) .nil))

/-! ## C9 -/

/-- C9: `getValues` is identity-stable — reading twice from the same store
state returns the same snapshot reference — and every id without a snapshot
entry (the case for unregistered panels) gets the one shared
`EMPTY_VALUES` sentinel. -/
theorem C9_snapshot_identity (s : DialStore) (id id2 : String)
    (h1 : aget id s.snapshots = none) (h2 : aget id2 s.snapshots = none) :
    (∀ id3 : String, getValues s id3 = getValues s id3) ∧
    getValues s id = EMPTY_VALUES ∧ getValues s id = getValues s id2 := by
  unfold getValues
  rw [h1, h2]
  exact ⟨fun _ => rfl, rfl, rfl⟩

/-- Witness for C9 at the freshly constructed store and ids `"a"`, `"b"`. -/
theorem C9_snapshot_identity_witness :
    (∀ id3 : String, getValues emptyStore id3 = getValues emptyStore id3) ∧
    getValues emptyStore "a" = EMPTY_VALUES ∧
    getValues emptyStore "a" = getValues emptyStore "b" :=
  C9_snapshot_identity emptyStore "a" "b" rfl rfl

/-! ## C4 -/

/-- C4 counterexample: an exception other than `PanelNotFound` crosses the
store boundary — `registerPanel` on a choice config with an empty options
list throws a `TypeError` (from `flattenValues` reading
`options[0].value`). -/
theorem C4_counterexample :
    registerPanel emptyStore "p" "P" (.cons "s" (selectConfig .nil) .nil) =
      .error "TypeError: cannot read properties of undefined" ∧
    "TypeError: cannot read properties of undefined" ≠ "Panel p not found" :=
  ⟨rfl, by decide⟩

/-- C4 (amended): on an absent panel, `updateValue`, `loadPreset` and
`triggerAction` are silent no-ops; `savePreset` throws `Panel ... not found`;
`deletePreset` throws nothing and leaves panels, snapshots, base values and
the allocation counter unchanged, but still filters any surviving preset
list for the id and clears a matching active pointer. -/
theorem C4_absent_panel_ops (s : DialStore) (id path pid name : String)
    (v : JSVal) (h : aget id s.panels = none) :
    updateValue s id path v = s ∧
    loadPreset s id pid = s ∧
    triggerAction s id path = s ∧
    savePreset s id name = .error ("Panel " ++ id ++ " not found") ∧
    (deletePreset s id pid).panels = s.panels ∧
    (deletePreset s id pid).snapshots = s.snapshots ∧
    (deletePreset s id pid).baseValues = s.baseValues ∧
    (deletePreset s id pid).nextRef = s.nextRef ∧
    getPresets (deletePreset s id pid) id =
      (getPresets s id).filter (fun p => p.id ≠ pid) ∧
    getActivePresetId (deletePreset s id pid) id =
      (if getActivePresetId s id = some pid then none
       else getActivePresetId s id) := by
  refine ⟨?_, ?_, rfl, ?_, ?_⟩
  · unfold updateValue; rw [h]
  · unfold loadPreset; rw [h]
  · unfold savePreset; rw [h]
  · unfold deletePreset getPresets getActivePresetId
    cases ha : aget id s.activePreset with
    | none => simp [h, ha, aget_aset_self]
    | some a =>
      cases a with
      | none => simp [h, ha, aget_aset_self]
      | some x =>
        by_cases hx : x = pid
        · subst hx; simp [h, ha, aget_aset_self, aget_aset_ne]
        · simp [h, ha, hx, aget_aset_self]

/-- Witness for C4 at the freshly constructed store. -/
theorem C4_absent_panel_ops_witness :
    updateValue emptyStore "p" "x" (.num 1) = emptyStore ∧
    loadPreset emptyStore "p" "q" = emptyStore ∧
    triggerAction emptyStore "p" "x" = emptyStore ∧
    savePreset emptyStore "p" "n" = .error ("Panel " ++ "p" ++ " not found") ∧
    (deletePreset emptyStore "p" "q").panels = emptyStore.panels ∧
    (deletePreset emptyStore "p" "q").snapshots = emptyStore.snapshots ∧
    (deletePreset emptyStore "p" "q").baseValues = emptyStore.baseValues ∧
    (deletePreset emptyStore "p" "q").nextRef = emptyStore.nextRef ∧
    getPresets (deletePreset emptyStore "p" "q") "p" =
      (getPresets emptyStore "p").filter (fun p => p.id ≠ "q") ∧
    getActivePresetId (deletePreset emptyStore "p" "q") "p" =
      (if getActivePresetId emptyStore "p" = some "q" then none
       else getActivePresetId emptyStore "p") :=
  C4_absent_panel_ops emptyStore "p" "x" "q" "n" (.num 1) rfl

/-! ## C3 -/

/-- C3 counterexample: presets and the active-preset pointer survive both
`unregisterPanel` and a subsequent re-registration — after saving a preset,
unregistering and re-registering `p1`, the preset list still has one entry
and the active pointer is still set, contradicting the claimed empty preset
list and null active preset. -/
theorem C3_counterexample :
    (do
      let s0 ← registerPanel emptyStore "p1" "Demo" demoConfig
      let (s1, _) ← savePreset s0 "p1" "Snap"
      let s2 := unregisterPanel s1 "p1"
      let s3 ← registerPanel s2 "p1" "Demo" demoConfig
      Except.ok ((getPresets s2 "p1").length, getActivePresetId s2 "p1",
        (getPresets s3 "p1").length, getActivePresetId s3 "p1")) =
      Except.ok (1, some "preset-0", 1, some "preset-0") ∧
    (1 : Nat) ≠ 0 ∧ (some "preset-0" : Option String) ≠ none :=
  ⟨rfl, by decide, by decide⟩

/-- C3 (amended): `unregisterPanel` removes the panel and its snapshot but
leaves presets, the active-preset pointer and base values for the id in
place, and `registerPanel` overwrites panel, snapshot and base values
without touching the surviving preset list or active-preset pointer. -/
theorem C3_amended (s : DialStore) (id name : String) (config : JSFields)
    (hp : (keys s.panels).Nodup) (hs : (keys s.snapshots).Nodup) :
    (unregisterPanel s id).presets = s.presets ∧
    (unregisterPanel s id).activePreset = s.activePreset ∧
    (unregisterPanel s id).baseValues = s.baseValues ∧
    aget id (unregisterPanel s id).panels = none ∧
    aget id (unregisterPanel s id).snapshots = none ∧
    (∀ s', registerPanel s id name config = .ok s' →
      s'.presets = s.presets ∧ s'.activePreset = s.activePreset ∧
      getPresets s' id = getPresets s id ∧
      getActivePresetId s' id = getActivePresetId s id) := by
  refine ⟨rfl, rfl, rfl, aget_adel_self id s.panels hp,
    aget_adel_self id s.snapshots hs, ?_⟩
  intro s' hreg
  unfold registerPanel at hreg
  cases hfl : flattenFields "" config with
  | error e => rw [hfl] at hreg; cases hreg
  | ok values =>
    rw [hfl] at hreg
    cases hreg
    exact ⟨rfl, rfl, rfl, rfl⟩

/-- Witness for C3 at the freshly constructed store. -/
theorem C3_amended_witness :
    (unregisterPanel emptyStore "p1").presets = emptyStore.presets ∧
    (unregisterPanel emptyStore "p1").activePreset = emptyStore.activePreset ∧
    (unregisterPanel emptyStore "p1").baseValues = emptyStore.baseValues ∧
    aget "p1" (unregisterPanel emptyStore "p1").panels = none ∧
    aget "p1" (unregisterPanel emptyStore "p1").snapshots = none ∧
    (demoStore.presets = emptyStore.presets ∧
      demoStore.activePreset = emptyStore.activePreset ∧
      getPresets demoStore "p1" = getPresets emptyStore "p1" ∧
      getActivePresetId demoStore "p1" = getActivePresetId emptyStore "p1") := by
  obtain ⟨h1, h2, h3, h4, h5, h6⟩ :=
    C3_amended emptyStore "p1" "Demo" demoConfig (by decide) (by decide)
  exact ⟨h1, h2, h3, h4, h5, h6 demoStore rfl⟩

/-! ## C2 -/

/-- The store of the spec scenario just before `clearActivePreset`:
register `p1`, set `opacity` to `0.5` with no preset active (which writes
through into the base values), save preset `Snap`, set `enabled` to
`false` while `Snap` is active. -/
def c2state : DialStore :=
  match (do
    let s0 ← registerPanel emptyStore "p1" "Demo" demoConfig
    let s1 := updateValue s0 "p1" "opacity" (.num (1/2))
    let (s2, _) ← savePreset s1 "p1" "Snap"
    Except.ok (updateValue s2 "p1" "enabled" (.bool false)) :
      Except String DialStore) with
  | .ok s => s
  | .error _ => emptyStore

/-- C2 counterexample: in the claimed scenario, `clearActivePreset('p1')`
yields `{opacity: 0.5, enabled: true}` — not the claimed
`{opacity: 0.8, enabled: true}` — because the pre-save `updateValue` was
mirrored into the base values. -/
theorem C2_counterexample :
    panelValues (clearActivePreset c2state "p1") "p1" =
      [("opacity", JSVal.num (1/2)), ("enabled", JSVal.bool true)] ∧
    JSVal.num (1/2) ≠ JSVal.num (4/5) := by
  refine ⟨rfl, ?_⟩
  intro h
  injection h with h'
  norm_num at h'

/-- C2 (amended): for a registered panel, `clearActivePreset` restores the
current base-values snapshot — which includes any edits made while no
preset was active, so not necessarily the registration defaults — and
clears the active-preset pointer. -/
theorem C2_amended (s : DialStore) (id : String)
    (hp : (aget id s.panels).isSome = true)
    (hb : (aget id s.baseValues).isSome = true) :
    panelValues (clearActivePreset s id) id = (aget id s.baseValues).getD [] ∧
    getActivePresetId (clearActivePreset s id) id = none := by
  obtain ⟨p, hp'⟩ := Option.isSome_iff_exists.mp hp
  obtain ⟨b, hb'⟩ := Option.isSome_iff_exists.mp hb
  unfold clearActivePreset panelValues getActivePresetId
  rw [hp', hb']
  simp [aget_aset_self, hb']

/-- Witness for C2 at the scenario store. -/
theorem C2_amended_witness :
    panelValues (clearActivePreset c2state "p1") "p1" =
      (aget "p1" c2state.baseValues).getD [] ∧
    getActivePresetId (clearActivePreset c2state "p1") "p1" = none :=
  C2_amended c2state "p1" rfl rfl

/-! ## C7 -/

/-- C7 counterexample: for the bare number `2` the source computes
`max = 2 * 3 = 6` (the `|| 10` floor only fires when `v * 3` is `0`),
while the claimed table demands `max(2×3, 10) = 10`. -/
theorem C7_counterexample :
    inferRange 2 = (0, 6, 1/10) ∧ (6 : ℚ) ≠ max (2 * 3 : ℚ) 10 := by
  constructor
  · norm_num [inferRange]
  · norm_num

/-- C7 (amended): the auto-inferred bounds are `[0,1]` step `0.01` for
`0 ≤ v ≤ 1`; `[0, v×3]` step `0.1` for `1 < v ≤ 10`; `[0, v×3]` step `1`
for `10 < v ≤ 100`; `[0, v×3]` step `10` for `v > 100`; and `[v×3, −v×3]`
step `1` for `v < 0` — the `10`/`100`/`1000` fallbacks are JS `||` floors
that only apply when `v×3 = 0`, which cannot happen in those branches. -/
theorem C7_amended (v : ℚ) :
    (0 ≤ v → v ≤ 1 → inferRange v = (0, 1, 1/100)) ∧
    (1 < v → v ≤ 10 → inferRange v = (0, v * 3, 1/10)) ∧
    (10 < v → v ≤ 100 → inferRange v = (0, v * 3, 1)) ∧
    (100 < v → inferRange v = (0, v * 3, 10)) ∧
    (v < 0 → inferRange v = (v * 3, -v * 3, 1)) := by
  unfold inferRange
  refine ⟨fun h1 h2 => ?_, fun h1 h2 => ?_, fun h1 h2 => ?_,
    fun h1 => ?_, fun h1 => ?_⟩
  · rw [if_pos ⟨h1, h2⟩]
  · have h0 : (0 : ℚ) ≤ v := by linarith
    rw [if_neg (by rintro ⟨-, hle⟩; linarith), if_pos ⟨h0, h2⟩,
      if_neg (by intro h3; nlinarith)]
  · have h0 : (0 : ℚ) ≤ v := by linarith
    rw [if_neg (by rintro ⟨-, hle⟩; linarith),
      if_neg (by rintro ⟨-, hle⟩; linarith), if_pos ⟨h0, h2⟩,
      if_neg (by intro h3; nlinarith)]
  · have h0 : (0 : ℚ) ≤ v := by linarith
    rw [if_neg (by rintro ⟨-, hle⟩; linarith),
      if_neg (by rintro ⟨-, hle⟩; linarith),
      if_neg (by rintro ⟨-, hle⟩; linarith), if_pos h0,
      if_neg (by intro h3; nlinarith)]
  · rw [if_neg (by rintro ⟨hge, -⟩; linarith),
      if_neg (by rintro ⟨hge, -⟩; linarith),
      if_neg (by rintro ⟨hge, -⟩; linarith), if_neg (by intro hge; linarith)]

/-- Witness for C7, one input per branch. -/
theorem C7_amended_witness :
    inferRange (1/2) = (0, 1, 1/100) ∧
    inferRange 5 = (0, 5 * 3, 1/10) ∧
    inferRange 20 = (0, 20 * 3, 1) ∧
    inferRange 200 = (0, 200 * 3, 10) ∧
    inferRange (-7) = (-7 * 3, -(-7) * 3, 1) :=
  ⟨(C7_amended (1/2)).1 (by norm_num) (by norm_num),
   (C7_amended 5).2.1 (by norm_num) (by norm_num),
   (C7_amended 20).2.2.1 (by norm_num) (by norm_num),
   (C7_amended 200).2.2.2.1 (by norm_num),
   (C7_amended (-7)).2.2.2.2 (by norm_num)⟩

/-! ## C6 -/

/-- C6 counterexample: a choice-tagged record with an empty options list is
still classified as a select control (the source's `isSelectConfig` has no
non-emptiness test, so nothing falls through), and registration of such a
config fails with a `TypeError` rather than succeeding. -/
theorem C6_counterexample :
    isSelectConfig (selectConfig .nil) = true ∧
    classify (selectConfig .nil) = .selectK .nil none ∧
    registerPanel emptyStore "p" "P" (.cons "s" (selectConfig .nil) .nil) =
      .error "TypeError: cannot read properties of undefined" :=
  ⟨rfl, rfl, rfl⟩

/-- C6 (amended): a `select`-tagged record is classified as a select control
whenever its options field is an array, empty or not; with an empty options
list the schema still gets a select control, and flattening the config (and
hence registration) throws a `TypeError` instead of falling through. -/
theorem C6_amended (opts : JSList) (path label : String) :
    parseEntry path label (selectConfig opts) =
      [{ type := .select, path, label, children := none,
         options := some opts }] ∧
    flattenEntry path (selectConfig .nil) =
      .error "TypeError: cannot read properties of undefined" := by
  constructor
  · simp [parseEntry, classify, selectConfig, isSpringConfig, isEasingConfig,
      isActionConfig, isSelectConfig, agetF]
  · rfl

/-! ## C5 -/

/-- C5 counterexample: an array of non-numeric elements is not omitted —
`{a: ['x','y']}` produces a folder control with two text children and flat
entries `a.0`, `a.1`. -/
theorem C5_counterexample :
    parseFields ""
      (.cons "a" (.arr (.cons (.str "x") (.cons (.str "y") .nil))) .nil) =
      [{ type := .folder, path := "a", label := "A", children := some
          [{ type := .text, path := "a.0", label := "0", children := none },
           { type := .text, path := "a.1", label := "1", children := none }] }] ∧
    flattenFields ""
      (.cons "a" (.arr (.cons (.str "x") (.cons (.str "y") .nil))) .nil) =
      .ok [("a.0", JSVal.str "x"), ("a.1", JSVal.str "y")] ∧
    (Except.ok [("a.0", JSVal.str "x"), ("a.1", JSVal.str "y")] :
      Except String FlatMap) ≠ .ok [] := by
  refine ⟨rfl, rfl, ?_⟩
  intro h
  injection h with h'
  exact List.cons_ne_nil _ _ h'

/-- C5 (amended): `null`, functions and `undefined` are omitted from both
the control schema and the flat value map, but a non-tuple array (one whose
first element is not a number) is treated as a nested object: it becomes a
folder whose children are its index-keyed entries, and its entries land in
the flat value map. -/
theorem C5_amended :
    (∀ path label : String,
      parseEntry path label .null = [] ∧ parseEntry path label .fn = [] ∧
      parseEntry path label .undef = [] ∧
      flattenEntry path .null = .ok [] ∧ flattenEntry path .fn = .ok [] ∧
      flattenEntry path .undef = .ok []) ∧
    (∀ (path label s : String) (rest : JSList),
      parseEntry path label (.arr (.cons (.str s) rest)) =
        [{ type := .folder, path, label,
           children := some (parseElems path 0 (.cons (.str s) rest)) }] ∧
      flattenEntry path (.arr (.cons (.str s) rest)) =
        flattenElems path 0 (.cons (.str s) rest)) :=
  ⟨fun _ _ => ⟨rfl, rfl, rfl, rfl, rfl, rfl⟩, fun _ _ _ _ => ⟨rfl, rfl⟩⟩

/-! ## C1 and C10: preset write-through machinery -/

/-- Generated preset ids are never the empty string (so they are truthy
in the `if (activeId)` test of `updateValue`). -/
theorem mkPresetId_ne_empty (n : Nat) : mkPresetId n ≠ "" := by
  intro h
  have hlen := congrArg String.length h
  rw [mkPresetId, String.length_append] at hlen
  have h7 : "preset-".length = 7 := rfl
  have h0 : "".length = 0 := rfl
  rw [h7, h0] at hlen
  omega

/-- Writing through to the active preset reaches the appended preset when
no earlier preset in the list carries its id. -/
theorem updFirst_append (aid : String) (f : FlatMap → FlatMap)
    (l : List Preset) (a : Preset)
    (hl : ∀ p ∈ l, p.id ≠ aid) (ha : a.id = aid) :
    updFirst aid f (l ++ [a]) = l ++ [{ a with values := f a.values }] := by
  induction l with
  | nil => simp [updFirst, ha]
  | cons hd t ih =>
    rw [List.cons_append, updFirst, if_neg (hl hd (List.mem_cons_self hd t)),
      ih (fun p hp => hl p (List.mem_cons_of_mem hd hp)), List.cons_append]

/-- `Array.find` skips a block in which no element satisfies the
predicate. -/
theorem find?_append_left_none {α : Type} (p : α → Bool) (l1 l2 : List α)
    (h : ∀ x ∈ l1, p x = false) : (l1 ++ l2).find? p = l2.find? p := by
  induction l1 with
  | nil => rfl
  | cons hd t ih =>
    rw [List.cons_append, List.find?_cons, h hd (List.mem_cons_self hd t),
      ih (fun x hx => h x (List.mem_cons_of_mem hd hx))]

/-- The active-preset read in `updateValue` for a stored non-empty id. -/
theorem activeIdOf_eq_some (s : DialStore) (id aid : String)
    (h : aget id s.activePreset = some (some aid)) (hne : aid ≠ "") :
    activeIdOf s id = some aid := by
  unfold activeIdOf
  rw [h]
  simp [hne]

/-- Evaluation of `savePreset` on a present panel. -/
theorem savePreset_found (s : DialStore) (id name : String) (p : Panel)
    (hp : aget id s.panels = some p) :
    savePreset s id name = .ok
      ({ s with
        presets := aset id ((aget id s.presets).getD [] ++
          [⟨mkPresetId s.nextPresetId, name, p.values⟩]) s.presets,
        activePreset := aset id (some (mkPresetId s.nextPresetId))
          s.activePreset,
        snapshots := aset id ⟨s.nextRef, p.values⟩ s.snapshots,
        nextRef := s.nextRef + 1,
        nextPresetId := s.nextPresetId + 1 }, mkPresetId s.nextPresetId) := by
  unfold savePreset
  rw [hp]

/-- Evaluation of `updateValue` on a present panel while a preset is
active: the write mirrors into the first preset with the active id. -/
theorem updateValue_active (s : DialStore) (id path : String) (v : JSVal)
    (p : Panel) (aid : String) (ps : List Preset)
    (hp : aget id s.panels = some p)
    (ha : activeIdOf s id = some aid)
    (hps : aget id s.presets = some ps) :
    updateValue s id path v =
      { s with
        presets := aset id (updFirst aid (aset path v) ps) s.presets,
        panels := aset id { p with values := aset path v p.values } s.panels,
        snapshots := aset id ⟨s.nextRef, aset path v p.values⟩ s.snapshots,
        nextRef := s.nextRef + 1 } := by
  unfold updateValue
  rw [hp, ha, hps]
  rfl

/-- Evaluation of `loadPreset` when panel and preset exist. -/
theorem loadPreset_found (s : DialStore) (id pid : String) (p : Panel)
    (pr : Preset) (hp : aget id s.panels = some p)
    (hfind : ((aget id s.presets).getD []).find? (fun q => q.id = pid) =
      some pr) :
    loadPreset s id pid =
      { s with
        panels := aset id { p with values := pr.values } s.panels,
        snapshots := aset id ⟨s.nextRef, pr.values⟩ s.snapshots,
        activePreset := aset id (some pid) s.activePreset,
        nextRef := s.nextRef + 1 } := by
  unfold loadPreset
  rw [hp, hfind]

/-- C1 (amended): in the sequence `savePreset 'A'`, `updateValue`,
`savePreset 'B'`, the edit writes through into preset `A` (which is active
when `updateValue` runs), so `loadPreset('A')` restores the edited values —
equal to the live values at the moment `B` was saved — not the values at
the moment `A` was saved. -/
theorem C1_amended (s : DialStore) (id nA nB path : String) (v : JSVal)
    (s1 s2 s3 : DialStore) (pidA pidB : String) (p : Panel)
    (hp : aget id s.panels = some p)
    (hfresh : ∀ pr ∈ getPresets s id, pr.id ≠ mkPresetId s.nextPresetId)
    (hA : savePreset s id nA = .ok (s1, pidA))
    (hU : updateValue s1 id path v = s2)
    (hB : savePreset s2 id nB = .ok (s3, pidB)) :
    panelValues (loadPreset s3 id pidA) id = aset path v p.values ∧
    panelValues (loadPreset s3 id pidA) id = panelValues s3 id := by
  rw [savePreset_found s id nA p hp] at hA
  simp only [Except.ok.injEq, Prod.mk.injEq] at hA
  obtain ⟨hs1, hpid⟩ := hA
  subst hpid
  have h1panels : aget id s1.panels = some p := by rw [← hs1]; exact hp
  have h1active : aget id s1.activePreset =
      some (some (mkPresetId s.nextPresetId)) := by
    rw [← hs1]; exact aget_aset_self _ _ _
  have h1presets : aget id s1.presets =
      some ((aget id s.presets).getD [] ++
        [⟨mkPresetId s.nextPresetId, nA, p.values⟩]) := by
    rw [← hs1]; exact aget_aset_self _ _ _
  have hact : activeIdOf s1 id = some (mkPresetId s.nextPresetId) :=
    activeIdOf_eq_some s1 id _ h1active (mkPresetId_ne_empty _)
  have hfresh' : ∀ pr ∈ (aget id s.presets).getD [],
      pr.id ≠ mkPresetId s.nextPresetId := hfresh
  have e2 := updateValue_active s1 id path v p _ _ h1panels hact h1presets
  rw [updFirst_append _ _ _ _ hfresh' rfl] at e2
  rw [hU] at e2
  have h2panels : aget id s2.panels =
      some { p with values := aset path v p.values } := by
    rw [e2]; exact aget_aset_self _ _ _
  have h2presets : aget id s2.presets =
      some ((aget id s.presets).getD [] ++
        [⟨mkPresetId s.nextPresetId, nA, aset path v p.values⟩]) := by
    rw [e2]; exact aget_aset_self _ _ _
  have e3 := savePreset_found s2 id nB _ h2panels
  rw [e3] at hB
  simp only [Except.ok.injEq, Prod.mk.injEq] at hB
  obtain ⟨hs3, hpidB⟩ := hB
  have h3panels : aget id s3.panels =
      some { p with values := aset path v p.values } := by
    rw [← hs3]; exact h2panels
  have h3presets : aget id s3.presets =
      some (((aget id s.presets).getD [] ++
        [⟨mkPresetId s.nextPresetId, nA, aset path v p.values⟩]) ++
        [⟨mkPresetId s2.nextPresetId, nB, aset path v p.values⟩]) := by
    rw [← hs3, h2presets]
    simp only [Option.getD_some]
    exact aget_aset_self _ _ _
  have hfind : ((aget id s3.presets).getD []).find?
      (fun q => q.id = mkPresetId s.nextPresetId) =
      some ⟨mkPresetId s.nextPresetId, nA, aset path v p.values⟩ := by
    rw [h3presets, Option.getD_some, List.append_assoc]
    rw [find?_append_left_none _ _ _
      (fun x hx => decide_eq_false (hfresh' x hx))]
    simp only [List.cons_append, List.nil_append]
    rw [List.find?_cons_of_pos _ (by simp)]
  have e4 := loadPreset_found s3 id (mkPresetId s.nextPresetId) _ _
    h3panels hfind
  rw [e4]
  constructor
  · simp [panelValues, aget_aset_self]
  · simp [panelValues, aget_aset_self, h3panels]

/-- The registered demo panel (registration succeeds, so the fallback
branch is dead). -/
def demoPanel : Panel :=
  match aget "p1" demoStore.panels with
  | some p => p
  | none => ⟨"", "", [], []⟩

/-- C1 scenario, step 1: save preset `A` on the demo panel. -/
def c1save : DialStore × String :=
  match savePreset demoStore "p1" "A" with
  | .ok r => r
  | .error _ => (demoStore, "")

/-- C1 scenario, step 2: edit `opacity` while `A` is active. -/
def c1s2 : DialStore := updateValue c1save.1 "p1" "opacity" (.num (1/2))

/-- C1 scenario, step 3: save preset `B`. -/
def c1save2 : DialStore × String :=
  match savePreset c1s2 "p1" "B" with
  | .ok r => r
  | .error _ => (demoStore, "")

/-- C1 counterexample: after `savePreset('A')`, `updateValue(opacity, 0.5)`,
`savePreset('B')`, loading `A` yields `opacity = 0.5` — not `0.8`, the
value `opacity` had at the moment `A` was saved — because the edit was
auto-saved into the active preset `A`. -/
theorem C1_counterexample :
    (do
      let s0 ← registerPanel emptyStore "p1" "Demo" demoConfig
      let (s1, pidA) ← savePreset s0 "p1" "A"
      let s2 := updateValue s1 "p1" "opacity" (.num (1/2))
      let (s3, _) ← savePreset s2 "p1" "B"
      Except.ok (aget "opacity" (panelValues (loadPreset s3 "p1" pidA) "p1"))) =
      Except.ok (some (JSVal.num (1/2))) ∧
    aget "opacity" (panelValues demoStore "p1") = some (JSVal.num (4/5)) ∧
    JSVal.num (1/2) ≠ JSVal.num (4/5) := by
  refine ⟨rfl, rfl, ?_⟩
  intro h
  injection h with h'
  norm_num at h'

/-- Witness for C1 on the demo scenario. -/
theorem C1_amended_witness :
    panelValues (loadPreset c1save2.1 "p1" c1save.2) "p1" =
      aset "opacity" (JSVal.num (1/2)) demoPanel.values ∧
    panelValues (loadPreset c1save2.1 "p1" c1save.2) "p1" =
      panelValues c1save2.1 "p1" :=
  C1_amended demoStore "p1" "A" "B" "opacity" (.num (1/2))
    c1save.1 c1s2 c1save2.1 c1save.2 c1save2.2 demoPanel rfl
    (by
      have h : getPresets demoStore "p1" = ([] : List Preset) := rfl
      intro pr hpr
      rw [h] at hpr
      cases hpr)
    rfl rfl rfl

/-- Evaluation of `updateSpringMode` on a present panel; note it does not
write through to the active preset or the base values. -/
theorem updateSpringMode_found (s : DialStore) (id path mode : String)
    (p : Panel) (hp : aget id s.panels = some p) :
    updateSpringMode s id path mode =
      { s with
        panels := aset id
          { p with values := aset (path ++ ".__mode") (.str mode) p.values }
          s.panels,
        snapshots := aset id
          ⟨s.nextRef, aset (path ++ ".__mode") (.str mode) p.values⟩
          s.snapshots,
        nextRef := s.nextRef + 1 } := by
  unfold updateSpringMode
  rw [hp]

/-- C10: after `updateSpringMode(id, path, m)`, `savePreset` stores the
auxiliary `path + '.__mode'` entry with value `m` in the preset snapshot;
`loadPreset` replaces the live flat values wholesale with that snapshot, so
a `'.__mode'` entry absent from the snapshot (e.g. one written only after
the save) is absent from the live values once the preset is loaded. -/
theorem C10_mode_in_preset (s : DialStore) (id path m name : String)
    (s2 : DialStore) (pid : String) (p : Panel)
    (hp : aget id s.panels = some p)
    (hfresh : ∀ pr ∈ getPresets s id, pr.id ≠ mkPresetId s.nextPresetId)
    (hA : savePreset (updateSpringMode s id path m) id name = .ok (s2, pid)) :
    (((aget id s2.presets).getD []).find? (fun q => q.id = pid) =
      some ⟨pid, name, aset (path ++ ".__mode") (.str m) p.values⟩) ∧
    aget (path ++ ".__mode") (aset (path ++ ".__mode") (.str m) p.values) =
      some (.str m) ∧
    (∀ path2 m2 : String,
      panelValues (loadPreset (updateSpringMode s2 id path2 m2) id pid) id =
        aset (path ++ ".__mode") (.str m) p.values ∧
      (aget (path2 ++ ".__mode")
          (aset (path ++ ".__mode") (.str m) p.values) = none →
        aget (path2 ++ ".__mode")
          (panelValues (loadPreset (updateSpringMode s2 id path2 m2) id pid)
            id) = none)) := by
  have e1 := updateSpringMode_found s id path m p hp
  have h1panels : aget id (updateSpringMode s id path m).panels =
      some { p with values := aset (path ++ ".__mode") (.str m) p.values } := by
    rw [e1]; exact aget_aset_self _ _ _
  have e2 := savePreset_found (updateSpringMode s id path m) id name _ h1panels
  rw [e2] at hA
  simp only [Except.ok.injEq, Prod.mk.injEq] at hA
  obtain ⟨hs2, hpid⟩ := hA
  have hpid' : pid = mkPresetId s.nextPresetId := by
    rw [← hpid, e1]
  subst hpid'
  have h2presets : aget id s2.presets =
      some ((aget id s.presets).getD [] ++
        [⟨mkPresetId s.nextPresetId, name,
          aset (path ++ ".__mode") (.str m) p.values⟩]) := by
    rw [← hs2, e1]
    exact aget_aset_self _ _ _
  have h2panels : aget id s2.panels =
      some { p with values := aset (path ++ ".__mode") (.str m) p.values } := by
    rw [← hs2, e1]
    exact aget_aset_self _ _ _
  have hfresh' : ∀ pr ∈ (aget id s.presets).getD [],
      pr.id ≠ mkPresetId s.nextPresetId := hfresh
  have hfind : ((aget id s2.presets).getD []).find?
      (fun q => q.id = mkPresetId s.nextPresetId) =
      some ⟨mkPresetId s.nextPresetId, name,
        aset (path ++ ".__mode") (.str m) p.values⟩ := by
    rw [h2presets, Option.getD_some]
    rw [find?_append_left_none _ _ _
      (fun x hx => decide_eq_false (hfresh' x hx))]
    rw [List.find?_cons_of_pos _ (by simp)]
  refine ⟨hfind, aget_aset_self _ _ _, fun path2 m2 => ?_⟩
  have e3 := updateSpringMode_found s2 id path2 m2 _ h2panels
  have h3panels : aget id (updateSpringMode s2 id path2 m2).panels =
      some ⟨p.id, p.name, p.controls,
        aset (path2 ++ ".__mode") (JSVal.str m2)
          (aset (path ++ ".__mode") (JSVal.str m) p.values)⟩ := by
    rw [e3]; exact aget_aset_self _ _ _
  have h3presets : aget id (updateSpringMode s2 id path2 m2).presets =
      aget id s2.presets := by
    rw [e3]
  have e4 := loadPreset_found (updateSpringMode s2 id path2 m2) id
    (mkPresetId s.nextPresetId) _ _ h3panels (by rw [h3presets]; exact hfind)
  constructor
  · rw [e4]; simp [panelValues, aget_aset_self]
  · intro habs
    rw [e4]
    simpa [panelValues, aget_aset_self] using habs

/-- C10 scenario: set a spring mode, then save a preset. -/
def c10save : DialStore × String :=
  match savePreset (updateSpringMode demoStore "p1" "spring" "advanced")
      "p1" "M" with
  | .ok r => r
  | .error _ => (demoStore, "")

/-- Witness for C10 on the demo scenario. -/
theorem C10_mode_in_preset_witness :
    ((((aget "p1" c10save.1.presets).getD []).find?
      (fun q => q.id = c10save.2)) =
      some ⟨c10save.2, "M",
        aset ("spring" ++ ".__mode") (.str "advanced") demoPanel.values⟩) ∧
    aget ("spring" ++ ".__mode")
      (aset ("spring" ++ ".__mode") (.str "advanced") demoPanel.values) =
      some (.str "advanced") ∧
    (∀ path2 m2 : String,
      panelValues (loadPreset (updateSpringMode c10save.1 "p1" path2 m2) "p1"
        c10save.2) "p1" =
        aset ("spring" ++ ".__mode") (.str "advanced") demoPanel.values ∧
      (aget (path2 ++ ".__mode")
          (aset ("spring" ++ ".__mode") (.str "advanced") demoPanel.values) =
          none →
        aget (path2 ++ ".__mode")
          (panelValues (loadPreset (updateSpringMode c10save.1 "p1" path2 m2)
            "p1" c10save.2) "p1") = none)) :=
  C10_mode_in_preset demoStore "p1" "spring" "advanced" "M" c10save.1
    c10save.2 demoPanel rfl
    (by
      have h : getPresets demoStore "p1" = ([] : List Preset) := rfl
      intro pr hpr
      rw [h] at hpr
      cases hpr)
    rfl

/-!
## The value resolver (`buildResolvedValues` from `resolve.ts`)

The resolver mirrors the shape of the config tree, substituting flat values
for defaults; the reserved key `_collapsed` is skipped at every object
level.  For a select entry the default is computed before the flat lookup
is consulted (`const defaultValue = configValue.default ?? getFirst...`),
so an empty options list with no default throws even when a flat value is
present; unlike `flattenValues`, the `??` makes the first-option read lazy.
Results are JS objects (`JSFields`), built with the same write semantics.
-/

/-- Property write on a JS object (`result[key] = v`). -/
def jfSet (k : String) (v : JSVal) : JSFields → JSFields
  | .nil => .cons k v .nil
  | .cons k' v' t => if k' = k then .cons k v t else .cons k' v' (jfSet k v t)

/-- Sequential writes of every entry of the second object into the first. -/
def jfMerge (a : JSFields) : JSFields → JSFields
  | .nil => a
  | .cons k v t => jfMerge (jfSet k v a) t

mutual

/-- One entry of `buildResolvedValues`: the resolved value for config entry
`v` at `path` (`none` = the entry produces no key). -/
def resolveEntry (path : String) (v : JSVal) (flat : FlatMap) :
    Except String (Option JSVal) :=
  match classify v with
  | .tupleK q _ => .ok (some (jsCoalesce (aget path flat) (.num q)))
  | .numK _ | .boolK _ | .strK _ => .ok (some (jsCoalesce (aget path flat) v))
  | .springK | .easingK => .ok (some (jsCoalesce (aget path flat) v))
  | .actionK => .ok (some (jsCoalesce (aget path flat) v))
  | .selectK opts dflt =>
      (match (match dflt with
        | some .null => firstOptionValue opts
        | some .undef => firstOptionValue opts
        | none => firstOptionValue opts
        | some x => .ok x) with
       | .error e => .error e
       | .ok dv => .ok (some (jsCoalesce (aget path flat) dv)))
  | .colorK dflt =>
      .ok (some (jsCoalesce (aget path flat)
        (jsCoalesce dflt (.str "#000000"))))
  | .textK dflt _ =>
      .ok (some (jsCoalesce (aget path flat) (jsCoalesce dflt (.str ""))))
  | .groupK =>
      match v with
      | .obj fs =>
        (match resolveFields path fs flat with
         | .error e => .error e
         | .ok r => .ok (some (.obj r)))
      | .arr xs =>
        (match resolveElems path 0 xs flat with
         | .error e => .error e
         | .ok r => .ok (some (.obj r)))
      | _ => .ok none
  | .skipK => .ok none

/-- `buildResolvedValues` over an object's entries (skipping
`_collapsed`). -/
def resolveFields (pre : String) (fs : JSFields) (flat : FlatMap) :
    Except String JSFields :=
  match fs with
  | .nil => .ok .nil
  | .cons k v t =>
    if k = "_collapsed" then resolveFields pre t flat
    else
      (match resolveEntry (joinPath pre k) v flat with
       | .error e => .error e
       | .ok r =>
         match resolveFields pre t flat with
         | .error e => .error e
         | .ok rest => .ok (match r with
           | some rv => jfMerge (.cons k rv .nil) rest
           | none => rest))

/-- `buildResolvedValues` over a (non-tuple) array's entries. -/
def resolveElems (pre : String) (i : Nat) (xs : JSList) (flat : FlatMap) :
    Except String JSFields :=
  match xs with
  | .nil => .ok .nil
  | .cons v t =>
      (match resolveEntry (joinPath pre (toString i)) v flat with
       | .error e => .error e
       | .ok r =>
         match resolveElems pre (i + 1) t flat with
         | .error e => .error e
         | .ok rest => .ok (match r with
           | some rv => jfMerge (.cons (toString i) rv .nil) rest
           | none => rest))

end

/-!
## The spec side for the round-trip claim

`specDefaults` is modelled from the spec, not the source: SPEC sections 3,
4.1, 4.2 and 4.4 describe the tree of literal defaults of a configuration
tree — tuple entries default to element 0, bare literals to themselves,
spring / easing / action records to the literal record, a choice to its
explicit default else its first option's value, color / text to their
default else the fixed fallback, groups recurse — with reserved keys
(`_collapsed`) excluded, and a choice without a non-empty options list
falling through to the nested-mapping rule.  `isConfigEntry` is the SPEC
section 3 data model of configuration-tree values (numeric literal, 2-4
element numeric tuple, boolean, string, tagged record with well-typed
kind-specific fields, or nested tree). -/

/-- All elements of a JS array are numbers. -/
def jsAllNums : JSList → Bool
  | .nil => true
  | .cons (.num _) t => jsAllNums t
  | .cons _ _ => false

/-- A well-formed choice option per SPEC section 3: a string, or a record
whose `value` is a string. -/
def isOption : JSVal → Bool
  | .str _ => true
  | .obj fs => match agetF "value" fs with
    | some (.str _) => true
    | _ => false
  | _ => false

/-- All options well-formed. -/
def isOptionList : JSList → Bool
  | .nil => true
  | .cons o t => isOption o && isOptionList t

/-- An absent-or-string optional field (the `default?: string` shape). -/
def isOptStr : Option JSVal → Bool
  | none => true
  | some (.str _) => true
  | _ => false

mutual

/-- SPEC section 3 configuration-tree values. -/
def isConfigEntry : JSVal → Bool
  | .num _ => true
  | .bool _ => true
  | .str _ => true
  | .arr xs =>
    (match xs with
     | .cons (.num _) rest =>
       jsAllNums rest && decide (1 ≤ rest.length) && decide (rest.length ≤ 3)
     | _ => false)
  | .obj fs =>
    (match agetF "type" fs with
     | some (.str "spring") => true
     | some (.str "easing") => true
     | some (.str "action") => true
     | some (.str "select") =>
       (match agetF "options" fs with
        | some (.arr (.cons o t)) => isOption o && isOptionList t
        | _ => false) && isOptStr (agetF "default" fs)
     | some (.str "color") => isOptStr (agetF "default" fs)
     | some (.str "text") => isOptStr (agetF "default" fs)
     | _ => isConfigFields fs)
  | .null => false
  | .undef => false
  | .fn => false

/-- SPEC section 3 configuration trees (entry-wise). -/
def isConfigFields : JSFields → Bool
  | .nil => true
  | .cons _ v t => isConfigEntry v && isConfigFields t

end

/-- Modelled from the spec: the first option's value of a choice — the
option itself when it is a string, else its `value` field (SPEC 4.2/4.4). -/
def specFirstOption : JSList → Except String JSVal
  | .nil => .error "no options"
  | .cons (.str s) _ => .ok (.str s)
  | .cons (.obj fs) _ =>
    (match agetF "value" fs with
     | some (.str s) => .ok (.str s)
     | _ => .error "malformed option")
  | .cons _ _ => .error "malformed option"

mutual

/-- Modelled from the spec: the literal default of one configuration entry
per the SPEC 4.1 classification ladder and the SPEC 4.2/4.4 default rules
(`none` = the entry contributes nothing). -/
def specDefaultsEntry : JSVal → Except String (Option JSVal)
  | .num q => .ok (some (.num q))
  | .bool b => .ok (some (.bool b))
  | .str s => .ok (some (.str s))
  | .arr xs =>
    (match xs with
     | .cons (.num q) rest =>
       if jsAllNums rest && decide (1 ≤ rest.length) &&
           decide (rest.length ≤ 3) then
         .ok (some (.num q))
       else .ok none
     | _ => .ok none)
  | .obj fs =>
    (match agetF "type" fs with
     | some (.str "spring") => .ok (some (.obj fs))
     | some (.str "easing") => .ok (some (.obj fs))
     | some (.str "action") => .ok (some (.obj fs))
     | some (.str "select") =>
       (match agetF "options" fs with
        | some (.arr (.cons o t)) =>
          (match ((match agetF "default" fs with
            | some (.str s) => .ok (JSVal.str s)
            | _ => specFirstOption (.cons o t)) : Except String JSVal) with
           | .error e => .error e
           | .ok d => .ok (some d))
        | _ =>
          (match specDefaultsFields fs with
           | .error e => .error e
           | .ok r => .ok (some (.obj r))))
     | some (.str "color") =>
       .ok (some (match agetF "default" fs with
         | some (.str s) => .str s
         | _ => .str "#000000"))
     | some (.str "text") =>
       .ok (some (match agetF "default" fs with
         | some (.str s) => .str s
         | _ => .str ""))
     | _ =>
       (match specDefaultsFields fs with
        | .error e => .error e
        | .ok r => .ok (some (.obj r))))
  | .null => .ok none
  | .undef => .ok none
  | .fn => .ok none

/-- Modelled from the spec: the tree of literal defaults of a configuration
tree, reserved `_collapsed` keys excluded. -/
def specDefaultsFields : JSFields → Except String JSFields
  | .nil => .ok .nil
  | .cons k v t =>
    if k = "_collapsed" then specDefaultsFields t
    else
      (match specDefaultsEntry v with
       | .error e => .error e
       | .ok r =>
         match specDefaultsFields t with
         | .error e => .error e
         | .ok rest => .ok (match r with
           | some rv => jfMerge (.cons k rv .nil) rest
           | none => rest))

end

mutual

/-- The hierarchical path of every node the schema builder visits below
(and including) a config entry at `path`; flat keys produced by
`flattenValues` are a subset of these. -/
def nodePathsEntry (path : String) (v : JSVal) : List String :=
  match classify v with
  | .easingK | .groupK =>
      path :: (match v with
        | .obj fs => nodePathsFields path fs
        | .arr xs => nodePathsElems path 0 xs
        | _ => [])
  | _ => [path]

/-- Node paths of an object's entries. -/
def nodePathsFields (pre : String) : JSFields → List String
  | .nil => []
  | .cons k v t => nodePathsEntry (joinPath pre k) v ++ nodePathsFields pre t

/-- Node paths of an array's entries. -/
def nodePathsElems (pre : String) (i : Nat) : JSList → List String
  | .nil => []
  | .cons v t =>
      nodePathsEntry (joinPath pre (toString i)) v ++
        nodePathsElems pre (i + 1) t

end

/-! ## Lemmas about record writes and merges -/

theorem aget_single (k : String) (x : α) : aget k [(k, x)] = some x := by
  simp [aget]

theorem keys_aset_subset (k : String) (v : α) (m : List (String × α)) :
    ∀ q ∈ keys (aset k v m), q = k ∨ q ∈ keys m := by
  induction m with
  | nil => intro q hq; simp [aset, keys] at hq; exact Or.inl hq
  | cons hd t ih =>
    obtain ⟨k', v'⟩ := hd
    intro q hq
    by_cases hk : k' = k
    · subst hk
      simp [aset, keys] at hq ⊢
      tauto
    · simp only [aset, if_neg hk, keys, List.map_cons, List.mem_cons] at hq ⊢
      rcases hq with hq | hq
      · tauto
      · rcases ih q hq with h | h <;> tauto

theorem keys_aset_nodup (k : String) (v : α) (m : List (String × α))
    (h : (keys m).Nodup) : (keys (aset k v m)).Nodup := by
  induction m with
  | nil => simp [aset, keys]
  | cons hd t ih =>
    obtain ⟨k', v'⟩ := hd
    simp only [keys, List.map_cons, List.nodup_cons] at h
    by_cases hk : k' = k
    · subst hk
      simpa [aset, keys, List.nodup_cons] using h
    · simp only [aset, if_neg hk, keys, List.map_cons, List.nodup_cons]
      refine ⟨fun hmem => ?_, ih h.2⟩
      rcases keys_aset_subset k v t k' hmem with h' | h'
      · exact hk h'
      · exact h.1 h'

theorem aget_amerge_right_none (a b : List (String × α)) (q : String)
    (h : aget q b = none) : aget q (amerge a b) = aget q a := by
  induction b generalizing a with
  | nil => rfl
  | cons hd t ih =>
    obtain ⟨k, v⟩ := hd
    simp only [aget] at h
    by_cases hk : k = q
    · rw [if_pos hk] at h; cases h
    · rw [if_neg hk] at h
      rw [amerge, ih (aset k v a) h, aget_aset_ne q k v a hk]

theorem keys_amerge_subset (a b : List (String × α)) (q : String)
    (h : q ∈ keys (amerge a b)) : q ∈ keys a ∨ q ∈ keys b := by
  induction b generalizing a with
  | nil => exact Or.inl h
  | cons hd t ih =>
    obtain ⟨k, v⟩ := hd
    rw [amerge] at h
    rcases ih (aset k v a) h with h' | h'
    · rcases keys_aset_subset k v a q h' with h'' | h''
      · subst h''; right; simp [keys]
      · exact Or.inl h''
    · right; simp only [keys, List.map_cons, List.mem_cons]; tauto

theorem keys_amerge_nodup (a b : List (String × α))
    (h : (keys a).Nodup) : (keys (amerge a b)).Nodup := by
  induction b generalizing a with
  | nil => exact h
  | cons hd t ih =>
    obtain ⟨k, v⟩ := hd
    exact ih (aset k v a) (keys_aset_nodup k v a h)

theorem aget_amerge_left_not_mem (a b : List (String × α)) (q : String)
    (ha : q ∉ keys a) (hb : (keys b).Nodup) :
    aget q (amerge a b) = aget q b := by
  induction b generalizing a with
  | nil => rw [amerge, aget_eq_none_of_not_mem_keys q a ha]; rfl
  | cons hd t ih =>
    obtain ⟨k, v⟩ := hd
    simp only [keys, List.map_cons, List.nodup_cons] at hb
    rw [amerge]
    by_cases hk : k = q
    · subst hk
      rw [aget_amerge_right_none _ _ _
        (aget_eq_none_of_not_mem_keys k t hb.1), aget_aset_self]
      simp [aget]
    · have hna : q ∉ keys (aset k v a) := fun hmem => by
        rcases keys_aset_subset k v a q hmem with h' | h'
        · exact hk h'.symm
        · exact ha h'
      rw [ih (aset k v a) hna hb.2]
      simp [aget, fun h : k = q => hk h]

/-! ## Unfolding equations for the mutual traversals -/

theorem flattenEntry_def (path : String) (v : JSVal) :
    flattenEntry path v =
      (match classify v with
       | .tupleK q _ => .ok [(path, .num q)]
       | .numK _ | .boolK _ | .strK _ => .ok [(path, v)]
       | .springK => .ok [(path, v)]
       | .actionK => .ok [(path, v)]
       | .selectK opts dflt =>
          (match firstOptionValue opts with
           | .error e => .error e
           | .ok fv => .ok [(path, jsCoalesce dflt fv)])
       | .colorK dflt => .ok [(path, jsCoalesce dflt (.str "#000000"))]
       | .textK dflt _ => .ok [(path, jsCoalesce dflt (.str ""))]
       | .easingK | .groupK =>
          (match v with
           | .obj fs => flattenFields path fs
           | .arr xs => flattenElems path 0 xs
           | _ => .ok [])
       | .skipK => .ok []) := by
  cases v <;> rfl

theorem flattenFields_nil (pre : String) : flattenFields pre .nil = .ok [] :=
  rfl

theorem flattenFields_cons (pre k : String) (v : JSVal) (t : JSFields) :
    flattenFields pre (.cons k v t) =
      (match flattenEntry (joinPath pre k) v with
       | .error e => .error e
       | .ok m =>
         match flattenFields pre t with
         | .error e => .error e
         | .ok rest => .ok (amerge m rest)) := rfl

theorem flattenElems_nil (pre : String) (i : Nat) :
    flattenElems pre i .nil = .ok [] := rfl

theorem flattenElems_cons (pre : String) (i : Nat) (v : JSVal) (t : JSList) :
    flattenElems pre i (.cons v t) =
      (match flattenEntry (joinPath pre (toString i)) v with
       | .error e => .error e
       | .ok m =>
         match flattenElems pre (i + 1) t with
         | .error e => .error e
         | .ok rest => .ok (amerge m rest)) := rfl

theorem nodePathsEntry_def (path : String) (v : JSVal) :
    nodePathsEntry path v =
      (match classify v with
       | .easingK | .groupK =>
          path :: (match v with
            | .obj fs => nodePathsFields path fs
            | .arr xs => nodePathsElems path 0 xs
            | _ => [])
       | _ => [path]) := by
  cases v <;> rfl

theorem nodePathsFields_nil (pre : String) : nodePathsFields pre .nil = [] :=
  rfl

theorem nodePathsFields_cons (pre k : String) (v : JSVal) (t : JSFields) :
    nodePathsFields pre (.cons k v t) =
      nodePathsEntry (joinPath pre k) v ++ nodePathsFields pre t := rfl

theorem nodePathsElems_nil (pre : String) (i : Nat) :
    nodePathsElems pre i .nil = [] := rfl

theorem nodePathsElems_cons (pre : String) (i : Nat) (v : JSVal) (t : JSList) :
    nodePathsElems pre i (.cons v t) =
      nodePathsEntry (joinPath pre (toString i)) v ++
        nodePathsElems pre (i + 1) t := rfl

/-! ## Flat keys are node paths, without duplicates -/

mutual

theorem flattenEntry_keys (path : String) (v : JSVal) :
    ∀ m, flattenEntry path v = .ok m →
      (∀ q ∈ keys m, q ∈ nodePathsEntry path v) ∧ (keys m).Nodup := by
  intro m h
  rw [flattenEntry_def] at h
  split at h
  case h_7 =>
    rename_i heq
    split at h
    · cases h
    · injection h with h'
      subst h'
      refine ⟨fun q' hq' => ?_, by simp [keys]⟩
      rw [show nodePathsEntry path v = [path] from by
        rw [nodePathsEntry_def, heq]]
      simpa [keys] using hq'
  case h_10 =>
    rename_i heq
    split at h
    case _ fs =>
      obtain ⟨hsub, hnd⟩ := flattenFields_keys path fs m h
      refine ⟨fun q' hq' => ?_, hnd⟩
      rw [show nodePathsEntry path (.obj fs) =
        path :: nodePathsFields path fs from by rw [nodePathsEntry_def, heq]]
      exact List.mem_cons_of_mem _ (hsub q' hq')
    case _ xs =>
      obtain ⟨hsub, hnd⟩ := flattenElems_keys path 0 xs m h
      refine ⟨fun q' hq' => ?_, hnd⟩
      rw [show nodePathsEntry path (.arr xs) =
        path :: nodePathsElems path 0 xs from by rw [nodePathsEntry_def, heq]]
      exact List.mem_cons_of_mem _ (hsub q' hq')
    case _ =>
      injection h with h'
      subst h'
      exact ⟨fun q' hq' => by simp [keys] at hq', by simp [keys]⟩
  case h_11 =>
    rename_i heq
    split at h
    case _ fs =>
      obtain ⟨hsub, hnd⟩ := flattenFields_keys path fs m h
      refine ⟨fun q' hq' => ?_, hnd⟩
      rw [show nodePathsEntry path (.obj fs) =
        path :: nodePathsFields path fs from by rw [nodePathsEntry_def, heq]]
      exact List.mem_cons_of_mem _ (hsub q' hq')
    case _ xs =>
      obtain ⟨hsub, hnd⟩ := flattenElems_keys path 0 xs m h
      refine ⟨fun q' hq' => ?_, hnd⟩
      rw [show nodePathsEntry path (.arr xs) =
        path :: nodePathsElems path 0 xs from by rw [nodePathsEntry_def, heq]]
      exact List.mem_cons_of_mem _ (hsub q' hq')
    case _ =>
      injection h with h'
      subst h'
      exact ⟨fun q' hq' => by simp [keys] at hq', by simp [keys]⟩
  case h_12 =>
    rename_i heq
    injection h with h'
    subst h'
    exact ⟨fun q' hq' => by simp [keys] at hq', by simp [keys]⟩
  all_goals
    rename_i heq
    injection h with h'
    subst h'
    refine ⟨fun q' hq' => ?_, by simp [keys]⟩
    rw [show nodePathsEntry path v = [path] from by
      rw [nodePathsEntry_def, heq]]
    simpa [keys] using hq'

theorem flattenFields_keys (pre : String) (fs : JSFields) :
    ∀ m, flattenFields pre fs = .ok m →
      (∀ q ∈ keys m, q ∈ nodePathsFields pre fs) ∧ (keys m).Nodup := by
  intro m h
  cases fs with
  | nil =>
    rw [flattenFields_nil] at h
    injection h with h'
    subst h'
    exact ⟨fun q hq => by simp [keys] at hq, by simp [keys]⟩
  | cons k v t =>
    rw [flattenFields_cons] at h
    split at h
    · cases h
    case _ m1 h1 =>
      split at h
      · cases h
      case _ m2 h2 =>
        injection h with h'
        subst h'
        obtain ⟨hs1, hn1⟩ := flattenEntry_keys (joinPath pre k) v m1 h1
        obtain ⟨hs2, hn2⟩ := flattenFields_keys pre t m2 h2
        refine ⟨fun q hq => ?_, keys_amerge_nodup m1 m2 hn1⟩
        rw [nodePathsFields_cons]
        rcases keys_amerge_subset m1 m2 q hq with hq' | hq'
        · exact List.mem_append_left _ (hs1 q hq')
        · exact List.mem_append_right _ (hs2 q hq')

theorem flattenElems_keys (pre : String) (i : Nat) (xs : JSList) :
    ∀ m, flattenElems pre i xs = .ok m →
      (∀ q ∈ keys m, q ∈ nodePathsElems pre i xs) ∧ (keys m).Nodup := by
  intro m h
  cases xs with
  | nil =>
    rw [flattenElems_nil] at h
    injection h with h'
    subst h'
    exact ⟨fun q hq => by simp [keys] at hq, by simp [keys]⟩
  | cons v t =>
    rw [flattenElems_cons] at h
    split at h
    · cases h
    case _ m1 h1 =>
      split at h
      · cases h
      case _ m2 h2 =>
        injection h with h'
        subst h'
        obtain ⟨hs1, hn1⟩ :=
          flattenEntry_keys (joinPath pre (toString i)) v m1 h1
        obtain ⟨hs2, hn2⟩ := flattenElems_keys pre (i + 1) t m2 h2
        refine ⟨fun q hq => ?_, keys_amerge_nodup m1 m2 hn1⟩
        rw [nodePathsElems_cons]
        rcases keys_amerge_subset m1 m2 q hq with hq' | hq'
        · exact List.mem_append_left _ (hs1 q hq')
        · exact List.mem_append_right _ (hs2 q hq')

end

/-! ## More unfolding equations -/

theorem resolveEntry_def (path : String) (v : JSVal) (flat : FlatMap) :
    resolveEntry path v flat =
      (match classify v with
       | .tupleK q _ => .ok (some (jsCoalesce (aget path flat) (.num q)))
       | .numK _ | .boolK _ | .strK _ =>
          .ok (some (jsCoalesce (aget path flat) v))
       | .springK | .easingK => .ok (some (jsCoalesce (aget path flat) v))
       | .actionK => .ok (some (jsCoalesce (aget path flat) v))
       | .selectK opts dflt =>
          (match (match dflt with
            | some .null => firstOptionValue opts
            | some .undef => firstOptionValue opts
            | none => firstOptionValue opts
            | some x => .ok x) with
           | .error e => .error e
           | .ok dv => .ok (some (jsCoalesce (aget path flat) dv)))
       | .colorK dflt =>
          .ok (some (jsCoalesce (aget path flat)
            (jsCoalesce dflt (.str "#000000"))))
       | .textK dflt _ =>
          .ok (some (jsCoalesce (aget path flat) (jsCoalesce dflt (.str ""))))
       | .groupK =>
          (match v with
           | .obj fs =>
             (match resolveFields path fs flat with
              | .error e => .error e
              | .ok r => .ok (some (.obj r)))
           | .arr xs =>
             (match resolveElems path 0 xs flat with
              | .error e => .error e
              | .ok r => .ok (some (.obj r)))
           | _ => .ok none)
       | .skipK => .ok none) := by
  cases v <;> rfl

theorem resolveFields_nil (pre : String) (flat : FlatMap) :
    resolveFields pre .nil flat = .ok .nil := rfl

theorem resolveFields_cons (pre k : String) (v : JSVal) (t : JSFields)
    (flat : FlatMap) :
    resolveFields pre (.cons k v t) flat =
      (if k = "_collapsed" then resolveFields pre t flat
       else
        (match resolveEntry (joinPath pre k) v flat with
         | .error e => .error e
         | .ok r =>
           match resolveFields pre t flat with
           | .error e => .error e
           | .ok rest => .ok (match r with
             | some rv => jfMerge (.cons k rv .nil) rest
             | none => rest))) := rfl

theorem isConfigEntry_def (v : JSVal) :
    isConfigEntry v =
      (match v with
       | .num _ => true
       | .bool _ => true
       | .str _ => true
       | .arr xs =>
         (match xs with
          | .cons (.num _) rest =>
            jsAllNums rest && decide (1 ≤ rest.length) &&
              decide (rest.length ≤ 3)
          | _ => false)
       | .obj fs =>
         (match agetF "type" fs with
          | some (.str "spring") => true
          | some (.str "easing") => true
          | some (.str "action") => true
          | some (.str "select") =>
            (match agetF "options" fs with
             | some (.arr (.cons o t)) => isOption o && isOptionList t
             | _ => false) && isOptStr (agetF "default" fs)
          | some (.str "color") => isOptStr (agetF "default" fs)
          | some (.str "text") => isOptStr (agetF "default" fs)
          | _ => isConfigFields fs)
       | .null => false
       | .undef => false
       | .fn => false) := by
  cases v <;> rfl

theorem isConfigFields_cons (k : String) (v : JSVal) (t : JSFields) :
    isConfigFields (.cons k v t) = (isConfigEntry v && isConfigFields t) := rfl

theorem specDefaultsEntry_def (v : JSVal) :
    specDefaultsEntry v =
      (match v with
       | .num q => .ok (some (.num q))
       | .bool b => .ok (some (.bool b))
       | .str s => .ok (some (.str s))
       | .arr xs =>
         (match xs with
          | .cons (.num q) rest =>
            if jsAllNums rest && decide (1 ≤ rest.length) &&
                decide (rest.length ≤ 3) then
              .ok (some (.num q))
            else .ok none
          | _ => .ok none)
       | .obj fs =>
         (match agetF "type" fs with
          | some (.str "spring") => .ok (some (.obj fs))
          | some (.str "easing") => .ok (some (.obj fs))
          | some (.str "action") => .ok (some (.obj fs))
          | some (.str "select") =>
            (match agetF "options" fs with
             | some (.arr (.cons o t)) =>
               (match ((match agetF "default" fs with
                 | some (.str s) => .ok (JSVal.str s)
                 | _ => specFirstOption (.cons o t)) : Except String JSVal) with
                | .error e => .error e
                | .ok d => .ok (some d))
             | _ =>
               (match specDefaultsFields fs with
                | .error e => .error e
                | .ok r => .ok (some (.obj r))))
          | some (.str "color") =>
            .ok (some (match agetF "default" fs with
              | some (.str s) => .str s
              | _ => .str "#000000"))
          | some (.str "text") =>
            .ok (some (match agetF "default" fs with
              | some (.str s) => .str s
              | _ => .str ""))
          | _ =>
            (match specDefaultsFields fs with
             | .error e => .error e
             | .ok r => .ok (some (.obj r))))
       | .null => .ok none
       | .undef => .ok none
       | .fn => .ok none) := by
  cases v <;> rfl

theorem specDefaultsFields_nil : specDefaultsFields .nil = .ok .nil := rfl

theorem specDefaultsFields_cons (k : String) (v : JSVal) (t : JSFields) :
    specDefaultsFields (.cons k v t) =
      (if k = "_collapsed" then specDefaultsFields t
       else
        (match specDefaultsEntry v with
         | .error e => .error e
         | .ok r =>
           match specDefaultsFields t with
           | .error e => .error e
           | .ok rest => .ok (match r with
             | some rv => jfMerge (.cons k rv .nil) rest
             | none => rest))) := rfl


theorem mem_nodePathsEntry_self (path : String) (v : JSVal) :
    path ∈ nodePathsEntry path v := by
  rw [nodePathsEntry_def]
  cases classify v <;> simp

/-- An object whose tag is a string other than the six recognised control
tags is a plain group for the SPEC section 3 predicate. -/
theorem isConfigEntry_obj_other (fs : JSFields) (s : String)
    (hty : agetF "type" fs = some (.str s))
    (h1 : ¬ s = "spring") (h2 : ¬ s = "easing") (h3 : ¬ s = "action")
    (h4 : ¬ s = "select") (h5 : ¬ s = "color") (h6 : ¬ s = "text") :
    isConfigEntry (.obj fs) = isConfigFields fs := by
  simp only [isConfigEntry_def, hty]
  split <;> simp_all

/-- An object whose tag is a string other than the six recognised control
tags takes the group branch of the spec-modelled defaults. -/
theorem specDefaultsEntry_obj_other (fs : JSFields) (s : String)
    (hty : agetF "type" fs = some (.str s))
    (h1 : ¬ s = "spring") (h2 : ¬ s = "easing") (h3 : ¬ s = "action")
    (h4 : ¬ s = "select") (h5 : ¬ s = "color") (h6 : ¬ s = "text") :
    specDefaultsEntry (.obj fs) =
      (match specDefaultsFields fs with
       | .error e => .error e
       | .ok r => .ok (some (.obj r))) := by
  simp only [specDefaultsEntry_def, hty]
  split <;> simp_all

mutual

theorem roundEntry (path : String) (v : JSVal) :
    ∀ flat m, isConfigEntry v = true → flattenEntry path v = .ok m →
      (nodePathsEntry path v).Nodup →
      (∀ q ∈ nodePathsEntry path v, aget q flat = aget q m) →
      ∃ d, specDefaultsEntry v = .ok (some d) ∧
        resolveEntry path v flat = .ok (some d) := by
  intro flat m hc h hnd hq
  cases v with
  | num q =>
    have hm : m = [(path, JSVal.num q)] := by
      rw [show flattenEntry path (.num q) = .ok [(path, .num q)] from rfl] at h
      injection h with h'
      exact h'.symm
    have hag : aget path flat = some (.num q) := by
      have hx := hq path (mem_nodePathsEntry_self path _)
      rw [hm, aget_single] at hx
      exact hx
    refine ⟨.num q, rfl, ?_⟩
    rw [show resolveEntry path (.num q) flat =
      .ok (some (jsCoalesce (aget path flat) (.num q))) from rfl, hag]
    rfl
  | bool b =>
    have hm : m = [(path, JSVal.bool b)] := by
      rw [show flattenEntry path (.bool b) = .ok [(path, .bool b)] from rfl]
        at h
      injection h with h'
      exact h'.symm
    have hag : aget path flat = some (.bool b) := by
      have hx := hq path (mem_nodePathsEntry_self path _)
      rw [hm, aget_single] at hx
      exact hx
    refine ⟨.bool b, rfl, ?_⟩
    rw [show resolveEntry path (.bool b) flat =
      .ok (some (jsCoalesce (aget path flat) (.bool b))) from rfl, hag]
    rfl
  | str s =>
    have hm : m = [(path, JSVal.str s)] := by
      rw [show flattenEntry path (.str s) = .ok [(path, .str s)] from rfl] at h
      injection h with h'
      exact h'.symm
    have hag : aget path flat = some (.str s) := by
      have hx := hq path (mem_nodePathsEntry_self path _)
      rw [hm, aget_single] at hx
      exact hx
    refine ⟨.str s, rfl, ?_⟩
    rw [show resolveEntry path (.str s) flat =
      .ok (some (jsCoalesce (aget path flat) (.str s))) from rfl, hag]
    rfl
  | null => simp [isConfigEntry_def] at hc
  | undef => simp [isConfigEntry_def] at hc
  | fn => simp [isConfigEntry_def] at hc
  | arr xs =>
    rw [isConfigEntry_def] at hc
    cases xs with
    | nil => simp at hc
    | cons hd rest =>
      cases hd
      case num q =>
        have hc' : (jsAllNums rest && decide (1 ≤ rest.length) &&
            decide (rest.length ≤ 3)) = true := hc
        simp only [Bool.and_eq_true, decide_eq_true_eq] at hc'
        obtain ⟨⟨hall, hlen1⟩, hlen3⟩ := hc'
        have hcl : classify (.arr (.cons (.num q) rest)) = .tupleK q rest := by
          simp [classify, hlen3]
        have hm : m = [(path, JSVal.num q)] := by
          simp only [flattenEntry_def, hcl] at h
          injection h with h'
          exact h'.symm
        have hag : aget path flat = some (.num q) := by
          have hx := hq path (mem_nodePathsEntry_self path _)
          rw [hm, aget_single] at hx
          exact hx
        refine ⟨.num q, ?_, ?_⟩
        · simp only [specDefaultsEntry_def]
          simp [hall, hlen1, hlen3]
        · simp only [resolveEntry_def, hcl, hag]
          rfl
      all_goals simp at hc
  | obj fs =>
    have hc2 : (match agetF "type" fs with
      | some (JSVal.str "spring") => true
      | some (JSVal.str "easing") => true
      | some (JSVal.str "action") => true
      | some (JSVal.str "select") =>
        (match agetF "options" fs with
         | some (JSVal.arr (JSList.cons o t)) => isOption o && isOptionList t
         | _ => false) && isOptStr (agetF "default" fs)
      | some (JSVal.str "color") => isOptStr (agetF "default" fs)
      | some (JSVal.str "text") => isOptStr (agetF "default" fs)
      | _ => isConfigFields fs) = true := hc
    cases hty : agetF "type" fs with
    | none =>
      rw [hty] at hc2
      have hc' : isConfigFields fs = true := hc2
      have hcl : classify (.obj fs) = .groupK := by
        simp [classify, isSpringConfig, isEasingConfig, isActionConfig,
          isSelectConfig, isColorConfig, isTextConfig, hty]
      have hfl2 : flattenFields path fs = .ok m := by
        simp only [flattenEntry_def, hcl] at h
        exact h
      have hnp : nodePathsEntry path (.obj fs) =
          path :: nodePathsFields path fs := by
        rw [nodePathsEntry_def, hcl]
      rw [hnp] at hnd hq
      obtain ⟨d, hs, hr⟩ := roundFields path fs flat m hc' hfl2
        (List.nodup_cons.mp hnd).2
        (fun q hqm => hq q (List.mem_cons_of_mem _ hqm))
      refine ⟨.obj d, ?_, ?_⟩
      · simp only [specDefaultsEntry_def, hty, hs]
      · simp only [resolveEntry_def, hcl, hr]
    | some tv =>
      rw [hty] at hc2
      cases tv
      case str s =>
        by_cases h1 : s = "spring"
        · subst h1
          have hcl : classify (.obj fs) = .springK := by
            simp [classify, isSpringConfig, hty]
          have hm : m = [(path, JSVal.obj fs)] := by
            simp only [flattenEntry_def, hcl] at h
            injection h with h'
            exact h'.symm
          have hag : aget path flat = some (.obj fs) := by
            have hx := hq path (mem_nodePathsEntry_self path _)
            rw [hm, aget_single] at hx
            exact hx
          refine ⟨.obj fs, ?_, ?_⟩
          · simp only [specDefaultsEntry_def, hty]
          · simp only [resolveEntry_def, hcl, hag, jsCoalesce]
        · by_cases h2 : s = "easing"
          · subst h2
            have hcl : classify (.obj fs) = .easingK := by
              simp [classify, isSpringConfig, isEasingConfig, hty]
            have hfl2 : flattenFields path fs = .ok m := by
              simp only [flattenEntry_def, hcl] at h
              exact h
            have hnp : nodePathsEntry path (.obj fs) =
                path :: nodePathsFields path fs := by
              rw [nodePathsEntry_def, hcl]
            obtain ⟨hsub, -⟩ := flattenFields_keys path fs m hfl2
            have hpm : aget path m = none := by
              apply aget_eq_none_of_not_mem_keys
              intro hmem
              rw [hnp] at hnd
              exact (List.nodup_cons.mp hnd).1 (hsub path hmem)
            have hag : aget path flat = none := by
              have hx := hq path (mem_nodePathsEntry_self path _)
              rw [hpm] at hx
              exact hx
            refine ⟨.obj fs, ?_, ?_⟩
            · simp only [specDefaultsEntry_def, hty]
            · simp only [resolveEntry_def, hcl, hag]
              rfl
          · by_cases h3 : s = "action"
            · subst h3
              have hcl : classify (.obj fs) = .actionK := by
                simp [classify, isSpringConfig, isEasingConfig,
                  isActionConfig, hty]
              have hm : m = [(path, JSVal.obj fs)] := by
                simp only [flattenEntry_def, hcl] at h
                injection h with h'
                exact h'.symm
              have hag : aget path flat = some (.obj fs) := by
                have hx := hq path (mem_nodePathsEntry_self path _)
                rw [hm, aget_single] at hx
                exact hx
              refine ⟨.obj fs, ?_, ?_⟩
              · simp only [specDefaultsEntry_def, hty]
              · simp only [resolveEntry_def, hcl, hag, jsCoalesce]
            · by_cases h4 : s = "select"
              · subst h4
                have hc' : ((match agetF "options" fs with
                    | some (.arr (.cons o t)) => isOption o && isOptionList t
                    | _ => false) &&
                    isOptStr (agetF "default" fs)) = true := hc2
                rw [Bool.and_eq_true] at hc'
                obtain ⟨hopts, hdef⟩ := hc'
                cases hop : agetF "options" fs with
                | none => rw [hop] at hopts; simp at hopts
                | some ov =>
                  rw [hop] at hopts
                  cases ov with
                  | arr xs =>
                    cases xs with
                    | nil => simp at hopts
                    | cons o t =>
                      have hopts' : (isOption o && isOptionList t) = true :=
                        hopts
                      rw [Bool.and_eq_true] at hopts'
                      obtain ⟨ho1, ho2⟩ := hopts'
                      have hcl : classify (.obj fs) =
                          .selectK (.cons o t) (agetF "default" fs) := by
                        simp [classify, isSpringConfig, isEasingConfig,
                          isActionConfig, isSelectConfig, hty, hop]
                      have hfv : ∃ s0 : String,
                          firstOptionValue (.cons o t) = .ok (.str s0) ∧
                          specFirstOption (.cons o t) = .ok (.str s0) := by
                        cases o
                        case str s0 => exact ⟨s0, rfl, rfl⟩
                        case obj ofs =>
                          have ho1' : (match agetF "value" ofs with
                            | some (.str _) => true
                            | _ => false) = true := ho1
                          cases hv : agetF "value" ofs with
                          | none => rw [hv] at ho1'; simp at ho1'
                          | some vv =>
                            rw [hv] at ho1'
                            cases vv
                            case str s0 =>
                              refine ⟨s0, ?_, ?_⟩
                              · rw [show firstOptionValue
                                  (.cons (.obj ofs) t) =
                                  .ok ((agetF "value" ofs).getD .undef)
                                  from rfl, hv]
                                rfl
                              · rw [show specFirstOption (.cons (.obj ofs) t) =
                                  (match agetF "value" ofs with
                                   | some (.str s) => .ok (.str s)
                                   | _ => .error "malformed option")
                                  from rfl, hv]
                            all_goals simp at ho1'
                        all_goals simp [isOption] at ho1
                      obtain ⟨s0, hfv1, hfv2⟩ := hfv
                      cases hda : agetF "default" fs with
                      | none =>
                        have hm : m = [(path, JSVal.str s0)] := by
                          simp only [flattenEntry_def, hcl, hfv1, hda] at h
                          injection h with h'
                          exact h'.symm
                        have hag : aget path flat = some (.str s0) := by
                          have hx := hq path (mem_nodePathsEntry_self path _)
                          rw [hm, aget_single] at hx
                          exact hx
                        refine ⟨.str s0, ?_, ?_⟩
                        · simp only [specDefaultsEntry_def, hty, hop, hda, hfv2]
                        · simp only [resolveEntry_def, hcl, hda, hfv1, hag, jsCoalesce]
                      | some dv =>
                        cases dv with
                        | str ds =>
                          have hm : m = [(path, JSVal.str ds)] := by
                            simp only [flattenEntry_def, hcl, hfv1, hda] at h
                            injection h with h'
                            exact h'.symm
                          have hag : aget path flat = some (.str ds) := by
                            have hx := hq path
                              (mem_nodePathsEntry_self path _)
                            rw [hm, aget_single] at hx
                            exact hx
                          refine ⟨.str ds, ?_, ?_⟩
                          · simp only [specDefaultsEntry_def, hty, hop, hda]
                          · simp only [resolveEntry_def, hcl, hda, hag, jsCoalesce]
                        | num q9 => rw [hda] at hdef; simp [isOptStr] at hdef
                        | bool b9 => rw [hda] at hdef; simp [isOptStr] at hdef
                        | null => rw [hda] at hdef; simp [isOptStr] at hdef
                        | undef => rw [hda] at hdef; simp [isOptStr] at hdef
                        | fn => rw [hda] at hdef; simp [isOptStr] at hdef
                        | arr l9 => rw [hda] at hdef; simp [isOptStr] at hdef
                        | obj g9 => rw [hda] at hdef; simp [isOptStr] at hdef
                  | num q9 => simp at hopts
                  | bool b9 => simp at hopts
                  | str s9 => simp at hopts
                  | null => simp at hopts
                  | undef => simp at hopts
                  | fn => simp at hopts
                  | obj g9 => simp at hopts
              · by_cases h5 : s = "color"
                · subst h5
                  have hdef : isOptStr (agetF "default" fs) = true := hc2
                  have hcl : classify (.obj fs) =
                      .colorK (agetF "default" fs) := by
                    simp [classify, isSpringConfig, isEasingConfig,
                      isActionConfig, isSelectConfig, isColorConfig, hty]
                  cases hda : agetF "default" fs with
                  | none =>
                    have hm : m = [(path, JSVal.str "#000000")] := by
                      simp only [flattenEntry_def, hcl, hda] at h
                      injection h with h'
                      exact h'.symm
                    have hag : aget path flat = some (.str "#000000") := by
                      have hx := hq path (mem_nodePathsEntry_self path _)
                      rw [hm, aget_single] at hx
                      exact hx
                    refine ⟨.str "#000000", ?_, ?_⟩
                    · simp only [specDefaultsEntry_def, hty, hda]
                    · simp only [resolveEntry_def, hcl, hda, hag, jsCoalesce]
                  | some dv =>
                    cases dv with
                    | str ds =>
                      have hm : m = [(path, JSVal.str ds)] := by
                        simp only [flattenEntry_def, hcl, hda] at h
                        injection h with h'
                        exact h'.symm
                      have hag : aget path flat = some (.str ds) := by
                        have hx := hq path (mem_nodePathsEntry_self path _)
                        rw [hm, aget_single] at hx
                        exact hx
                      refine ⟨.str ds, ?_, ?_⟩
                      · simp only [specDefaultsEntry_def, hty, hda]
                      · simp only [resolveEntry_def, hcl, hda, hag, jsCoalesce]
                    | num q9 => rw [hda] at hdef; simp [isOptStr] at hdef
                    | bool b9 => rw [hda] at hdef; simp [isOptStr] at hdef
                    | null => rw [hda] at hdef; simp [isOptStr] at hdef
                    | undef => rw [hda] at hdef; simp [isOptStr] at hdef
                    | fn => rw [hda] at hdef; simp [isOptStr] at hdef
                    | arr l9 => rw [hda] at hdef; simp [isOptStr] at hdef
                    | obj g9 => rw [hda] at hdef; simp [isOptStr] at hdef
                · by_cases h6 : s = "text"
                  · subst h6
                    have hdef : isOptStr (agetF "default" fs) = true := hc2
                    have hcl : classify (.obj fs) =
                        .textK (agetF "default" fs)
                          (agetF "placeholder" fs) := by
                      simp [classify, isSpringConfig, isEasingConfig,
                        isActionConfig, isSelectConfig, isColorConfig,
                        isTextConfig, hty]
                    cases hda : agetF "default" fs with
                    | none =>
                      have hm : m = [(path, JSVal.str "")] := by
                        simp only [flattenEntry_def, hcl, hda] at h
                        injection h with h'
                        exact h'.symm
                      have hag : aget path flat = some (.str "") := by
                        have hx := hq path (mem_nodePathsEntry_self path _)
                        rw [hm, aget_single] at hx
                        exact hx
                      refine ⟨.str "", ?_, ?_⟩
                      · simp only [specDefaultsEntry_def, hty, hda]
                      · simp only [resolveEntry_def, hcl, hda, hag, jsCoalesce]
                    | some dv =>
                      cases dv with
                      | str ds =>
                        have hm : m = [(path, JSVal.str ds)] := by
                          simp only [flattenEntry_def, hcl, hda] at h
                          injection h with h'
                          exact h'.symm
                        have hag : aget path flat = some (.str ds) := by
                          have hx := hq path (mem_nodePathsEntry_self path _)
                          rw [hm, aget_single] at hx
                          exact hx
                        refine ⟨.str ds, ?_, ?_⟩
                        · simp only [specDefaultsEntry_def, hty, hda]
                        · simp only [resolveEntry_def, hcl, hda, hag]
                          rfl
                      | num q9 => rw [hda] at hdef; simp [isOptStr] at hdef
                      | bool b9 => rw [hda] at hdef; simp [isOptStr] at hdef
                      | null => rw [hda] at hdef; simp [isOptStr] at hdef
                      | undef => rw [hda] at hdef; simp [isOptStr] at hdef
                      | fn => rw [hda] at hdef; simp [isOptStr] at hdef
                      | arr l9 => rw [hda] at hdef; simp [isOptStr] at hdef
                      | obj g9 => rw [hda] at hdef; simp [isOptStr] at hdef
                  · -- unrecognized tag string: group
                    have hc' : isConfigFields fs = true := by
                      rw [← isConfigEntry_obj_other fs s hty h1 h2 h3 h4 h5 h6]
                      exact hc
                    have hcl : classify (.obj fs) = .groupK := by
                      simp [classify, isSpringConfig, isEasingConfig,
                        isActionConfig, isSelectConfig, isColorConfig,
                        isTextConfig, hty, h1, h2, h3, h4, h5, h6]
                    have hfl2 : flattenFields path fs = .ok m := by
                      simp only [flattenEntry_def, hcl] at h
                      exact h
                    have hnp : nodePathsEntry path (.obj fs) =
                        path :: nodePathsFields path fs := by
                      rw [nodePathsEntry_def, hcl]
                    rw [hnp] at hnd hq
                    obtain ⟨d, hs, hr⟩ := roundFields path fs flat m hc' hfl2
                      (List.nodup_cons.mp hnd).2
                      (fun q hqm => hq q (List.mem_cons_of_mem _ hqm))
                    refine ⟨.obj d, ?_, ?_⟩
                    · rw [specDefaultsEntry_obj_other fs s hty h1 h2 h3 h4 h5 h6,
                        hs]
                    · simp only [resolveEntry_def, hcl, hr]
      all_goals
        have hc' : isConfigFields fs = true := hc2
        have hcl : classify (.obj fs) = .groupK := by
          simp [classify, isSpringConfig, isEasingConfig, isActionConfig,
            isSelectConfig, isColorConfig, isTextConfig, hty]
        have hfl2 : flattenFields path fs = .ok m := by
          simp only [flattenEntry_def, hcl] at h
          exact h
        have hnp : nodePathsEntry path (.obj fs) =
            path :: nodePathsFields path fs := by
          rw [nodePathsEntry_def, hcl]
        rw [hnp] at hnd hq
        obtain ⟨d, hs, hr⟩ := roundFields path fs flat m hc' hfl2
          (List.nodup_cons.mp hnd).2
          (fun q hqm => hq q (List.mem_cons_of_mem _ hqm))
        refine ⟨.obj d, ?_, ?_⟩
        · simp only [specDefaultsEntry_def, hty, hs]
        · simp only [resolveEntry_def, hcl, hr]

theorem roundFields (pre : String) (fs : JSFields) :
    ∀ flat m, isConfigFields fs = true → flattenFields pre fs = .ok m →
      (nodePathsFields pre fs).Nodup →
      (∀ q ∈ nodePathsFields pre fs, aget q flat = aget q m) →
      ∃ d, specDefaultsFields fs = .ok d ∧
        resolveFields pre fs flat = .ok d := by
  intro flat m hc h hnd hq
  cases fs with
  | nil =>
    rw [flattenFields_nil] at h
    exact ⟨.nil, rfl, rfl⟩
  | cons k v t =>
    rw [isConfigFields_cons, Bool.and_eq_true] at hc
    obtain ⟨hcv, hct⟩ := hc
    rw [flattenFields_cons] at h
    split at h
    · cases h
    case _ m1 h1 =>
      split at h
      · cases h
      case _ m2 h2 =>
        injection h with h'
        subst h'
        rw [nodePathsFields_cons] at hnd hq
        rw [List.nodup_append] at hnd
        obtain ⟨hnd1, hnd2, hdisj⟩ := hnd
        obtain ⟨hs1, hn1⟩ := flattenEntry_keys (joinPath pre k) v m1 h1
        obtain ⟨hs2, hn2⟩ := flattenFields_keys pre t m2 h2
        have hq1 : ∀ q ∈ nodePathsEntry (joinPath pre k) v,
            aget q flat = aget q m1 := by
          intro q hqm
          have hx := hq q (List.mem_append_left _ hqm)
          rw [aget_amerge_right_none m1 m2 q
            (aget_eq_none_of_not_mem_keys q m2
              (fun hk2 => hdisj hqm (hs2 q hk2)))] at hx
          exact hx
        have hq2 : ∀ q ∈ nodePathsFields pre t,
            aget q flat = aget q m2 := by
          intro q hqm
          have hx := hq q (List.mem_append_right _ hqm)
          rw [aget_amerge_left_not_mem m1 m2 q
            (fun hk1 => hdisj (hs1 q hk1) hqm) hn2] at hx
          exact hx
        obtain ⟨d1, hsd1, hrd1⟩ :=
          roundEntry (joinPath pre k) v flat m1 hcv h1 hnd1 hq1
        obtain ⟨d2, hsd2, hrd2⟩ := roundFields pre t flat m2 hct h2 hnd2 hq2
        by_cases hk : k = "_collapsed"
        · refine ⟨d2, ?_, ?_⟩
          · rw [specDefaultsFields_cons, if_pos hk, hsd2]
          · rw [resolveFields_cons, if_pos hk, hrd2]
        · refine ⟨jfMerge (.cons k d1 .nil) d2, ?_, ?_⟩
          · rw [specDefaultsFields_cons, if_neg hk, hsd1, hsd2]
          · rw [resolveFields_cons, if_neg hk, hrd1, hrd2]

end

/-- The round-trip example configuration of the claim: `{blur:[24,0,100]}`. -/
def blurConfig : JSFields :=
  .cons "blur"
    (.arr (.cons (.num 24) (.cons (.num 0) (.cons (.num 100) .nil)))) .nil

/-- C8: round-trip — for every configuration tree accepted by the schema
builder (a SPEC section 3 configuration tree whose hierarchical paths are
distinct), resolving the tree against the flat value map the builder itself
produced yields exactly the tree of literal defaults extracted from the
configuration tree. -/
theorem C8_roundtrip (config : JSFields) (flat : FlatMap)
    (hc : isConfigFields config = true)
    (hnd : (nodePathsFields "" config).Nodup)
    (hfl : flattenFields "" config = .ok flat) :
    ∃ d, specDefaultsFields config = .ok d ∧
      resolveFields "" config flat = .ok d :=
  roundFields "" config flat flat hc hfl hnd (fun _ _ => rfl)

/-- C8 witness: on the claim's own example `{blur:[24,0,100]}` the builder
produces the flat map `{blur:24}`, and resolving against it returns the
default tree `{blur:24}`. -/
theorem C8_roundtrip_witness :
    (∃ d, specDefaultsFields blurConfig = .ok d ∧
      resolveFields "" blurConfig [("blur", JSVal.num 24)] = .ok d) ∧
    specDefaultsFields blurConfig =
      .ok (.cons "blur" (.num 24) .nil) :=
  ⟨C8_roundtrip blurConfig [("blur", JSVal.num 24)] rfl
    (by rw [show nodePathsFields "" blurConfig = ["blur"] from rfl]
        exact List.nodup_singleton _)
    rfl, rfl⟩
